import Mathlib

/-!
Verification of `src/control/server.mjs` of the hyper-sam repository.

The file embeds the two exported functions:

* `ssrDefaultProps ({state, dispatch, wire})` — builds the default props
  record for server-side rendering, over a small JS object-heap model
  (object identity, prototypes, `Object.create(null)`, `Object.assign`).

* `ssrDispatch (_name, _handler, ..._args)` — returns a JS source string
  (a template literal) meant to be used as an inline event handler.  The
  embedding models the string exactly, together with `JSON.stringify`
  on the argument list, a parser for the emitted fragment of JS, and an
  interpreter that gives the fragment its browser-evaluation semantics
  (pushing a replay entry onto `window.dispatcher.toReplay`).
-/

namespace HyperSam

/-! ## Characters used by the serializers and parsers -/

/-- The single-quote character. -/
def sqC : Char := Char.ofNat 39

/-- The double-quote character. -/
def dqC : Char := Char.ofNat 34

/-- The backslash character. -/
def bsC : Char := Char.ofNat 92

/-- The backtick character. -/
def btC : Char := Char.ofNat 96

/-- The opening-brace character. -/
def lbC : Char := Char.ofNat 123

/-- The closing-brace character. -/
def rbC : Char := Char.ofNat 125

/-- The forward-slash character. -/
def slC : Char := Char.ofNat 47

/-! ## The JSON data model

`JSON.stringify` is applied by `ssrDispatch` to its rest-argument list.
We model JSON values with integer numbers (the integral doubles that
serialize in plain decimal notation). -/

/-- A JSON value: the serializable payloads carried through `ssrDispatch`. -/
inductive Json where
  | null
  | bool (b : Bool)
  | num (n : Int)
  | str (s : String)
  | arr (xs : List Json)
  | obj (fs : List (String × Json))

/-- Decimal digit character for `d ≤ 9`. -/
def digitChar (d : Nat) : Char := Char.ofNat (48 + d)

/-- Decimal rendering of a natural number, most significant digit first. -/
def natDec (n : Nat) : List Char :=
  if _h : n < 10 then [digitChar n]
  else natDec (n / 10) ++ [digitChar (n % 10)]
  decreasing_by exact Nat.div_lt_self (by omega) (by omega)

/-- Hexadecimal digit character for `d ≤ 15` (lowercase letters). -/
def hexDig (d : Nat) : Char :=
  if d < 10 then Char.ofNat (48 + d) else Char.ofNat (87 + d)

/-- Value of a hexadecimal digit character, if it is one. -/
def hexVal (c : Char) : Option Nat :=
  if 48 ≤ c.toNat ∧ c.toNat ≤ 57 then some (c.toNat - 48)
  else if 97 ≤ c.toNat ∧ c.toNat ≤ 102 then some (c.toNat - 87)
  else if 65 ≤ c.toNat ∧ c.toNat ≤ 70 then some (c.toNat - 55)
  else none

/-- JSON escaping of one character, as `JSON.stringify` performs it:
`"` and `\` get a backslash escape, the five named control characters get
their short escapes, other control characters become `\u00xx`, and
everything else is copied verbatim. -/
def escChar (c : Char) : List Char :=
  if c = dqC then [bsC, dqC]
  else if c = bsC then [bsC, bsC]
  else if c.toNat = 8 then [bsC, 'b']
  else if c.toNat = 9 then [bsC, 't']
  else if c.toNat = 10 then [bsC, 'n']
  else if c.toNat = 12 then [bsC, 'f']
  else if c.toNat = 13 then [bsC, 'r']
  else if c.toNat < 32 then
    [bsC, 'u', '0', '0', hexDig (c.toNat / 16), hexDig (c.toNat % 16)]
  else [c]

/-- JSON escaping of a character sequence. -/
def escBody : List Char → List Char
  | [] => []
  | c :: cs => escChar c ++ escBody cs

/-- JSON rendering of a string: double quotes around the escaped body. -/
def serStr (s : String) : List Char := dqC :: escBody s.data ++ [dqC]

/-- The keyword `null` as characters. -/
def litNull : List Char := ['n', 'u', 'l', 'l']

/-- The keyword `true` as characters. -/
def litTrue : List Char := ['t', 'r', 'u', 'e']

/-- The keyword `false` as characters. -/
def litFalse : List Char := ['f', 'a', 'l', 's', 'e']

mutual

/-- JSON rendering of a value, exactly as `JSON.stringify` produces it
(no whitespace, decimal numbers). -/
def serJ : Json → List Char
  | .null => litNull
  | .bool true => litTrue
  | .bool false => litFalse
  | .num i => if i < 0 then '-' :: natDec i.natAbs else natDec i.toNat
  | .str s => serStr s
  | .arr xs => '[' :: serL xs ++ [']']
  | .obj fs => lbC :: serM fs ++ [rbC]

/-- JSON rendering of array elements, comma separated. -/
def serL : List Json → List Char
  | [] => []
  | [x] => serJ x
  | x :: y :: t => serJ x ++ ',' :: serL (y :: t)

/-- JSON rendering of object members, comma separated. -/
def serM : List (String × Json) → List Char
  | [] => []
  | [(k, v)] => serStr k ++ ':' :: serJ v
  | (k, v) :: m :: t => serStr k ++ ':' :: serJ v ++ ',' :: serM (m :: t)

end

/-- The model of `JSON.stringify(_args)`: the rest-argument list is an
array at the top level. -/
def jsonStringifyArgs (args : List Json) : String :=
  String.mk (serJ (Json.arr args))

/-! ## A parser for the JSON fragment of JS expression syntax

The browser evaluates the text `JSON.stringify` produced as a JS
expression; this parser gives that evaluation.  It is exact on
`JSON.stringify` output (no whitespace skipping). -/

/-- Numeric value of a decimal digit character, if it is one. -/
def digitVal (c : Char) : Option Nat :=
  if 48 ≤ c.toNat ∧ c.toNat ≤ 57 then some (c.toNat - 48) else none

/-- Consume a maximal run of decimal digits, folding them onto `acc`. -/
def parseDigits (acc : Nat) : List Char → Nat × List Char
  | [] => (acc, [])
  | c :: r =>
    match digitVal c with
    | some d => parseDigits (acc * 10 + d) r
    | none => (acc, c :: r)

/-- Parse a natural number: at least one digit, maximal-munch. -/
def parseNum : List Char → Option (Nat × List Char)
  | [] => none
  | c :: r =>
    match digitVal c with
    | some _ => some (parseDigits 0 (c :: r))
    | none => none

/-- Decode the four hex digits of a `u`-escape. -/
def decodeHex4 : List Char → Option (Char × List Char)
  | h₁ :: h₂ :: h₃ :: h₄ :: cs =>
    match hexVal h₁, hexVal h₂, hexVal h₃, hexVal h₄ with
    | some a, some b, some c, some d =>
      some (Char.ofNat (((a * 16 + b) * 16 + c) * 16 + d), cs)
    | _, _, _, _ => none
  | _ => none

theorem decodeHex4_len (cs : List Char) (d : Char) (cs₂ : List Char)
    (h : decodeHex4 cs = some (d, cs₂)) : cs₂.length + 4 = cs.length := by
  match cs with
  | [] => simp [decodeHex4] at h
  | [_] => simp [decodeHex4] at h
  | [_, _] => simp [decodeHex4] at h
  | [_, _, _] => simp [decodeHex4] at h
  | h₁ :: h₂ :: h₃ :: h₄ :: tl =>
    simp only [decodeHex4] at h
    rcases e₁ : hexVal h₁ with _ | a <;> rw [e₁] at h <;>
      rcases e₂ : hexVal h₂ with _ | b <;> rw [e₂] at h <;>
        rcases e₃ : hexVal h₃ with _ | c <;> rw [e₃] at h <;>
          rcases e₄ : hexVal h₄ with _ | e <;> rw [e₄] at h <;>
            simp_all

/-- Decode one escape sequence after a backslash: the decoded character
and the remaining input. -/
def decodeEsc : List Char → Option (Char × List Char)
  | [] => none
  | e :: cs =>
    if e = dqC then some (dqC, cs)
    else if e = bsC then some (bsC, cs)
    else if e = slC then some (slC, cs)
    else if e = 'b' then some (Char.ofNat 8, cs)
    else if e = 't' then some (Char.ofNat 9, cs)
    else if e = 'n' then some (Char.ofNat 10, cs)
    else if e = 'f' then some (Char.ofNat 12, cs)
    else if e = 'r' then some (Char.ofNat 13, cs)
    else if e = 'u' then decodeHex4 cs
    else none

theorem decodeEsc_len (cs : List Char) (d : Char) (cs₂ : List Char)
    (h : decodeEsc cs = some (d, cs₂)) : cs₂.length < cs.length := by
  match cs with
  | [] => simp [decodeEsc] at h
  | e :: cs₁ =>
    simp only [decodeEsc] at h
    split_ifs at h with h₁ h₂ h₃ h₄ h₅ h₆ h₇ h₈ h₉ <;>
      first
        | exact Option.noConfusion h
        | (have hlen := decodeHex4_len cs₁ d cs₂ h
           simp only [List.length_cons]
           omega)
        | (simp only [Option.some.injEq, Prod.mk.injEq] at h
           obtain ⟨rfl, rfl⟩ := h
           simp)

/-- Parse the body of a double-quoted JSON string after the opening
quote, undoing the escapes of `escChar`; consumes the closing quote. -/
def parseStrBody : List Char → Option (List Char × List Char)
  | [] => none
  | c :: cs =>
    if c = dqC then some ([], cs)
    else if c = bsC then
      match _he : decodeEsc cs with
      | none => none
      | some (d, cs₂) => (parseStrBody cs₂).map (fun p => (d :: p.1, p.2))
    else if c.toNat < 32 then none
    else (parseStrBody cs).map (fun p => (c :: p.1, p.2))
  termination_by cs => cs.length
  decreasing_by
  · exact Nat.lt_succ_of_lt (decodeEsc_len _ _ _ _he)
  · exact Nat.lt_succ_self _

/-- Match an expected literal character sequence, returning the rest. -/
def expectL : List Char → List Char → Option (List Char)
  | [], cs => some cs
  | _ :: _, [] => none
  | p :: ps, c :: cs => if c = p then expectL ps cs else none

mutual

/-- Parse one JSON value; `f` is recursion fuel. -/
def parseJ : Nat → List Char → Option (Json × List Char)
  | 0, _ => none
  | _ + 1, [] => none
  | f + 1, c :: r =>
    if c = 'n' then (expectL ['u', 'l', 'l'] r).map (fun r₁ => (.null, r₁))
    else if c = 't' then (expectL ['r', 'u', 'e'] r).map (fun r₁ => (.bool true, r₁))
    else if c = 'f' then (expectL ['a', 'l', 's', 'e'] r).map (fun r₁ => (.bool false, r₁))
    else if c = dqC then (parseStrBody r).map (fun p => (.str (String.mk p.1), p.2))
    else if c = '[' then parseArrTop f r
    else if c = lbC then parseObjTop f r
    else if c = '-' then (parseNum r).map (fun p => (.num (-(p.1 : Int)), p.2))
    else (parseNum (c :: r)).map (fun p => (.num (p.1 : Int), p.2))
  termination_by f _ => (f, 0)

/-- Parse what follows the opening bracket of a JSON array. -/
def parseArrTop : Nat → List Char → Option (Json × List Char)
  | _, [] => none
  | f, c :: r =>
    if c = ']' then some (.arr [], r)
    else (parseArr f (c :: r)).map (fun p => (.arr p.1, p.2))
  termination_by f _ => (f, 2)

/-- Parse the non-empty element list of a JSON array, consuming the
closing bracket. -/
def parseArr : Nat → List Char → Option (List Json × List Char)
  | 0, _ => none
  | f + 1, cs =>
    match parseJ f cs with
    | none => none
    | some (j, r) => parseArrSep f j r
  termination_by f _ => (f, 1)

/-- Parse the separator after an array element: a comma and more
elements, or the closing bracket. -/
def parseArrSep : Nat → Json → List Char → Option (List Json × List Char)
  | _, _, [] => none
  | f, j, c :: r =>
    if c = ',' then (parseArr f r).map (fun p => (j :: p.1, p.2))
    else if c = ']' then some ([j], r)
    else none
  termination_by f _ _ => (f, 2)

/-- Parse what follows the opening brace of a JSON object. -/
def parseObjTop : Nat → List Char → Option (Json × List Char)
  | _, [] => none
  | f, c :: r =>
    if c = rbC then some (.obj [], r)
    else (parseObj f (c :: r)).map (fun p => (.obj p.1, p.2))
  termination_by f _ => (f, 2)

/-- Parse the non-empty member list of a JSON object, consuming the
closing brace. -/
def parseObj : Nat → List Char → Option (List (String × Json) × List Char)
  | 0, _ => none
  | _ + 1, [] => none
  | f + 1, c :: r =>
    if c = dqC then
      match parseStrBody r with
      | none => none
      | some (k, r₁) => parseObjColon f (String.mk k) r₁
    else none
  termination_by f _ => (f, 1)

/-- Parse the colon after a member key. -/
def parseObjColon : Nat → String → List Char → Option (List (String × Json) × List Char)
  | _, _, [] => none
  | f, k, c :: r => if c = ':' then parseObjVal f k r else none
  termination_by f _ _ => (f, 5)

/-- Parse the value of a member. -/
def parseObjVal (f : Nat) (k : String) (cs : List Char) :
    Option (List (String × Json) × List Char) :=
  match parseJ f cs with
  | none => none
  | some (v, r) => parseObjSep f k v r
  termination_by (f, 4)

/-- Parse the separator after a member: a comma and more members, or
the closing brace. -/
def parseObjSep : Nat → String → Json → List Char → Option (List (String × Json) × List Char)
  | _, _, _, [] => none
  | f, k, v, c :: r =>
    if c = ',' then (parseObj f r).map (fun p => ((k, v) :: p.1, p.2))
    else if c = rbC then some ([(k, v)], r)
    else none
  termination_by f _ _ _ => (f, 2)

end

/-! ## Fuel measure for the JSON parser -/

mutual

/-- Fuel sufficient for `parseJ` on the serialization of `j`. -/
def jfuel : Json → Nat
  | .null => 1
  | .bool _ => 1
  | .num _ => 1
  | .str _ => 1
  | .arr xs => 1 + jfuelL xs
  | .obj fs => 1 + jfuelM fs

/-- Fuel sufficient for `parseArr` on serialized elements. -/
def jfuelL : List Json → Nat
  | [] => 0
  | x :: t => 1 + jfuel x + jfuelL t

/-- Fuel sufficient for `parseObj` on serialized members. -/
def jfuelM : List (String × Json) → Nat
  | [] => 0
  | (_, v) :: t => 1 + jfuel v + jfuelM t

end

/-! ## Round-trip: parsing undoes `JSON.stringify` -/

/-- A tail is consumable after a number when it does not begin with a
decimal digit. -/
def okTailB : List Char → Bool
  | [] => true
  | c :: _ => (digitVal c).isNone

theorem expectL_append (p rest : List Char) : expectL p (p ++ rest) = some rest := by
  induction p with
  | nil => rfl
  | cons c ps ih => simp [expectL, ih]

theorem digitVal_digitChar : ∀ d, d < 10 → digitVal (digitChar d) = some d := by
  decide

theorem parseDigits_done (v : Nat) (rest : List Char) (h : okTailB rest = true) :
    parseDigits v rest = (v, rest) := by
  cases rest with
  | nil => rfl
  | cons c r =>
    simp only [okTailB, Option.isNone_iff_eq_none] at h
    simp [parseDigits, h]

theorem parseDigits_natDec (n : Nat) : ∀ acc rest,
    parseDigits acc (natDec n ++ rest) =
      parseDigits (acc * 10 ^ (natDec n).length + n) rest := by
  induction n using Nat.strong_induction_on with
  | _ n ih =>
    intro acc rest
    by_cases h : n < 10
    · rw [natDec, dif_pos h]
      simp [parseDigits, digitVal_digitChar n h]
    · rw [natDec, dif_neg h]
      have hlt : n / 10 < n := Nat.div_lt_self (by omega) (by omega)
      rw [List.append_assoc, List.cons_append, List.nil_append, ih _ hlt]
      have hd : digitVal (digitChar (n % 10)) = some (n % 10) :=
        digitVal_digitChar _ (Nat.mod_lt _ (by omega))
      simp only [parseDigits, hd]
      have harith :
          (acc * 10 ^ (natDec (n / 10)).length + n / 10) * 10 + n % 10 =
            acc * 10 ^ (natDec (n / 10) ++ [digitChar (n % 10)]).length + n := by
        rw [List.length_append, List.length_singleton, pow_succ]
        have := Nat.div_add_mod n 10
        ring_nf
        omega
      rw [harith]

theorem natDec_head (n : Nat) : ∃ d t, natDec n = digitChar d :: t ∧ d < 10 := by
  induction n using Nat.strong_induction_on with
  | _ n ih =>
    by_cases h : n < 10
    · exact ⟨n, [], by rw [natDec, dif_pos h], h⟩
    · obtain ⟨d, t, ht, hd⟩ := ih (n / 10) (Nat.div_lt_self (by omega) (by omega))
      exact ⟨d, t ++ [digitChar (n % 10)], by rw [natDec, dif_neg h, ht]; rfl, hd⟩

theorem parseNum_natDec (n : Nat) (rest : List Char) (h : okTailB rest = true) :
    parseNum (natDec n ++ rest) = some (n, rest) := by
  obtain ⟨d, t, ht, hd⟩ := natDec_head n
  rw [ht, List.cons_append]
  simp only [parseNum, digitVal_digitChar d hd]
  rw [← List.cons_append, ← ht, parseDigits_natDec, Nat.zero_mul, Nat.zero_add,
    parseDigits_done _ _ h]

theorem hexVal_hexDig : ∀ d, d < 16 → hexVal (hexDig d) = some d := by
  decide

theorem parseStrBody_nil : parseStrBody [] = none := by
  simp [parseStrBody]

theorem parseStrBody_dq (cs : List Char) : parseStrBody (dqC :: cs) = some ([], cs) := by
  simp [parseStrBody]

theorem parseStrBody_esc (cs : List Char) (d : Char) (cs₂ : List Char)
    (h : decodeEsc cs = some (d, cs₂)) :
    parseStrBody (bsC :: cs) = (parseStrBody cs₂).map (fun p => (d :: p.1, p.2)) := by
  have hne : ¬(bsC = dqC) := by decide
  simp [parseStrBody, hne]
  split <;> simp_all

theorem parseStrBody_lit (c : Char) (cs : List Char) (h1 : ¬c = dqC) (h2 : ¬c = bsC)
    (h3 : ¬c.toNat < 32) :
    parseStrBody (c :: cs) = (parseStrBody cs).map (fun p => (c :: p.1, p.2)) := by
  simp [parseStrBody, h1, h2, h3]

theorem decodeEsc_dq (cs : List Char) : decodeEsc (dqC :: cs) = some (dqC, cs) := by
  simp [decodeEsc]

theorem decodeEsc_bs (cs : List Char) : decodeEsc (bsC :: cs) = some (bsC, cs) := by
  have h : ¬(bsC = dqC) := by decide
  simp [decodeEsc, h]

theorem decodeEsc_b (cs : List Char) : decodeEsc ('b' :: cs) = some (Char.ofNat 8, cs) := by
  have h1 : ¬(('b' : Char) = dqC) := by decide
  have h2 : ¬(('b' : Char) = bsC) := by decide
  have h3 : ¬(('b' : Char) = slC) := by decide
  simp [decodeEsc, h1, h2, h3]

theorem decodeEsc_t (cs : List Char) : decodeEsc ('t' :: cs) = some (Char.ofNat 9, cs) := by
  have h1 : ¬(('t' : Char) = dqC) := by decide
  have h2 : ¬(('t' : Char) = bsC) := by decide
  have h3 : ¬(('t' : Char) = slC) := by decide
  have h4 : ¬(('t' : Char) = 'b') := by decide
  simp [decodeEsc, h1, h2, h3, h4]

theorem decodeEsc_n (cs : List Char) : decodeEsc ('n' :: cs) = some (Char.ofNat 10, cs) := by
  have h1 : ¬(('n' : Char) = dqC) := by decide
  have h2 : ¬(('n' : Char) = bsC) := by decide
  have h3 : ¬(('n' : Char) = slC) := by decide
  have h4 : ¬(('n' : Char) = 'b') := by decide
  have h5 : ¬(('n' : Char) = 't') := by decide
  simp [decodeEsc, h1, h2, h3, h4, h5]

theorem decodeEsc_f (cs : List Char) : decodeEsc ('f' :: cs) = some (Char.ofNat 12, cs) := by
  have h1 : ¬(('f' : Char) = dqC) := by decide
  have h2 : ¬(('f' : Char) = bsC) := by decide
  have h3 : ¬(('f' : Char) = slC) := by decide
  have h4 : ¬(('f' : Char) = 'b') := by decide
  have h5 : ¬(('f' : Char) = 't') := by decide
  have h6 : ¬(('f' : Char) = 'n') := by decide
  simp [decodeEsc, h1, h2, h3, h4, h5, h6]

theorem decodeEsc_r (cs : List Char) : decodeEsc ('r' :: cs) = some (Char.ofNat 13, cs) := by
  have h1 : ¬(('r' : Char) = dqC) := by decide
  have h2 : ¬(('r' : Char) = bsC) := by decide
  have h3 : ¬(('r' : Char) = slC) := by decide
  have h4 : ¬(('r' : Char) = 'b') := by decide
  have h5 : ¬(('r' : Char) = 't') := by decide
  have h6 : ¬(('r' : Char) = 'n') := by decide
  have h7 : ¬(('r' : Char) = 'f') := by decide
  simp [decodeEsc, h1, h2, h3, h4, h5, h6, h7]

theorem decodeEsc_u (h₃ h₄ : Char) (cs : List Char) (a b : Nat)
    (e₃ : hexVal h₃ = some a) (e₄ : hexVal h₄ = some b) :
    decodeEsc ('u' :: '0' :: '0' :: h₃ :: h₄ :: cs) =
      some (Char.ofNat (((0 * 16 + 0) * 16 + a) * 16 + b), cs) := by
  have h1 : ¬(('u' : Char) = dqC) := by decide
  have h2 : ¬(('u' : Char) = bsC) := by decide
  have h3 : ¬(('u' : Char) = slC) := by decide
  have h4 : ¬(('u' : Char) = 'b') := by decide
  have h5 : ¬(('u' : Char) = 't') := by decide
  have h6 : ¬(('u' : Char) = 'n') := by decide
  have h7 : ¬(('u' : Char) = 'f') := by decide
  have h8 : ¬(('u' : Char) = 'r') := by decide
  have h0 : hexVal '0' = some 0 := by decide
  simp [decodeEsc, decodeHex4, h1, h2, h3, h4, h5, h6, h7, h8, h0, e₃, e₄]

theorem parseStrBody_escBody (s : List Char) : ∀ rest,
    parseStrBody (escBody s ++ dqC :: rest) = some (s, rest) := by
  induction s with
  | nil =>
    intro rest
    simp [escBody, parseStrBody_dq]
  | cons c s ih =>
    intro rest
    rw [escBody, List.append_assoc]
    by_cases h1 : c = dqC
    · subst h1
      rw [escChar, if_pos rfl]
      rw [show ([bsC, dqC] : List Char) ++ (escBody s ++ dqC :: rest) =
        bsC :: dqC :: (escBody s ++ dqC :: rest) from rfl]
      rw [parseStrBody_esc _ _ _ (decodeEsc_dq _), ih]
      rfl
    · by_cases h2 : c = bsC
      · subst h2
        rw [escChar, if_neg h1, if_pos rfl]
        rw [show ([bsC, bsC] : List Char) ++ (escBody s ++ dqC :: rest) =
          bsC :: bsC :: (escBody s ++ dqC :: rest) from rfl]
        rw [parseStrBody_esc _ _ _ (decodeEsc_bs _), ih]
        rfl
      · by_cases h3 : c.toNat = 8
        · rw [escChar, if_neg h1, if_neg h2, if_pos h3]
          have hc : Char.ofNat 8 = c := by rw [← h3, Char.ofNat_toNat]
          rw [show ([bsC, 'b'] : List Char) ++ (escBody s ++ dqC :: rest) =
            bsC :: 'b' :: (escBody s ++ dqC :: rest) from rfl]
          rw [parseStrBody_esc _ _ _ (decodeEsc_b _), ih, hc]
          rfl
        · by_cases h4 : c.toNat = 9
          · rw [escChar, if_neg h1, if_neg h2, if_neg h3, if_pos h4]
            have hc : Char.ofNat 9 = c := by rw [← h4, Char.ofNat_toNat]
            rw [show ([bsC, 't'] : List Char) ++ (escBody s ++ dqC :: rest) =
              bsC :: 't' :: (escBody s ++ dqC :: rest) from rfl]
            rw [parseStrBody_esc _ _ _ (decodeEsc_t _), ih, hc]
            rfl
          · by_cases h5 : c.toNat = 10
            · rw [escChar, if_neg h1, if_neg h2, if_neg h3, if_neg h4, if_pos h5]
              have hc : Char.ofNat 10 = c := by rw [← h5, Char.ofNat_toNat]
              rw [show ([bsC, 'n'] : List Char) ++ (escBody s ++ dqC :: rest) =
                bsC :: 'n' :: (escBody s ++ dqC :: rest) from rfl]
              rw [parseStrBody_esc _ _ _ (decodeEsc_n _), ih, hc]
              rfl
            · by_cases h6 : c.toNat = 12
              · rw [escChar, if_neg h1, if_neg h2, if_neg h3, if_neg h4, if_neg h5, if_pos h6]
                have hc : Char.ofNat 12 = c := by rw [← h6, Char.ofNat_toNat]
                rw [show ([bsC, 'f'] : List Char) ++ (escBody s ++ dqC :: rest) =
                  bsC :: 'f' :: (escBody s ++ dqC :: rest) from rfl]
                rw [parseStrBody_esc _ _ _ (decodeEsc_f _), ih, hc]
                rfl
              · by_cases h7 : c.toNat = 13
                · rw [escChar, if_neg h1, if_neg h2, if_neg h3, if_neg h4, if_neg h5,
                    if_neg h6, if_pos h7]
                  have hc : Char.ofNat 13 = c := by rw [← h7, Char.ofNat_toNat]
                  rw [show ([bsC, 'r'] : List Char) ++ (escBody s ++ dqC :: rest) =
                    bsC :: 'r' :: (escBody s ++ dqC :: rest) from rfl]
                  rw [parseStrBody_esc _ _ _ (decodeEsc_r _), ih, hc]
                  rfl
                · by_cases h8 : c.toNat < 32
                  · rw [escChar, if_neg h1, if_neg h2, if_neg h3, if_neg h4, if_neg h5,
                      if_neg h6, if_neg h7, if_pos h8]
                    have ha : hexVal (hexDig (c.toNat / 16)) = some (c.toNat / 16) :=
                      hexVal_hexDig _ (by omega)
                    have hb : hexVal (hexDig (c.toNat % 16)) = some (c.toNat % 16) :=
                      hexVal_hexDig _ (Nat.mod_lt _ (by omega))
                    have hval : ((0 * 16 + 0) * 16 + c.toNat / 16) * 16 + c.toNat % 16
                        = c.toNat := by
                      have := Nat.div_add_mod c.toNat 16
                      omega
                    have hc : Char.ofNat (((0 * 16 + 0) * 16 + c.toNat / 16) * 16 +
                        c.toNat % 16) = c := by rw [hval, Char.ofNat_toNat]
                    rw [show ([bsC, 'u', '0', '0', hexDig (c.toNat / 16),
                        hexDig (c.toNat % 16)] : List Char) ++ (escBody s ++ dqC :: rest) =
                      bsC :: 'u' :: '0' :: '0' :: hexDig (c.toNat / 16) ::
                        hexDig (c.toNat % 16) :: (escBody s ++ dqC :: rest) from rfl]
                    rw [parseStrBody_esc _ _ _ (decodeEsc_u _ _ _ _ _ ha hb), ih, hc]
                    rfl
                  · rw [escChar, if_neg h1, if_neg h2, if_neg h3, if_neg h4, if_neg h5,
                      if_neg h6, if_neg h7, if_neg h8]
                    rw [show ([c] : List Char) ++ (escBody s ++ dqC :: rest) =
                      c :: (escBody s ++ dqC :: rest) from rfl]
                    rw [parseStrBody_lit c _ h1 h2 h8, ih]
                    rfl

theorem digitChar_notKey : ∀ d, d < 10 →
    digitChar d ≠ 'n' ∧ digitChar d ≠ 't' ∧ digitChar d ≠ 'f' ∧ digitChar d ≠ dqC ∧
      digitChar d ≠ '[' ∧ digitChar d ≠ lbC ∧ digitChar d ≠ '-' := by
  decide

theorem digitChar_notClose : ∀ d, d < 10 →
    digitChar d ≠ ']' ∧ digitChar d ≠ rbC ∧ digitChar d ≠ ',' := by
  decide

theorem serJ_head (j : Json) : ∃ c r, serJ j = c :: r ∧ c ≠ ']' ∧ c ≠ rbC ∧ c ≠ ',' := by
  cases j with
  | null => exact ⟨'n', _, rfl, by decide, by decide, by decide⟩
  | bool b =>
    cases b
    · exact ⟨'f', _, rfl, by decide, by decide, by decide⟩
    · exact ⟨'t', _, rfl, by decide, by decide, by decide⟩
  | num i =>
    by_cases hi : i < 0
    · refine ⟨'-', natDec i.natAbs, ?_, by decide, by decide, by decide⟩
      simp [serJ, hi]
    · obtain ⟨d, t, ht, hd⟩ := natDec_head i.toNat
      refine ⟨digitChar d, t, ?_, (digitChar_notClose d hd).1, (digitChar_notClose d hd).2.1,
        (digitChar_notClose d hd).2.2⟩
      simp [serJ, hi, ht]
  | str s => exact ⟨dqC, _, rfl, by decide, by decide, by decide⟩
  | arr xs => exact ⟨'[', _, rfl, by decide, by decide, by decide⟩
  | obj fs => exact ⟨lbC, _, rfl, by decide, by decide, by decide⟩

/-- A character that cannot begin a number. -/
theorem okTail_cons (c : Char) (rest : List Char) (h : digitVal c = none) :
    okTailB (c :: rest) = true := by
  simp [okTailB, h]

theorem digitVal_comma : digitVal ',' = none := by decide

theorem digitVal_rbracket : digitVal ']' = none := by decide

theorem digitVal_rbrace : digitVal rbC = none := by decide

mutual

theorem roundJ (j : Json) : ∀ (f : Nat) (rest : List Char), jfuel j ≤ f →
    okTailB rest = true → parseJ f (serJ j ++ rest) = some (j, rest) := by
  intro f rest hf hrest
  obtain ⟨f₁, rfl⟩ : ∃ f₁, f = f₁ + 1 := by
    cases j <;> simp [jfuel] at hf <;> exact ⟨f - 1, by omega⟩
  cases j with
  | null =>
    simp [serJ, litNull, parseJ, expectL]
  | bool b =>
    cases b <;> simp [serJ, litTrue, litFalse, parseJ, expectL]
  | num i =>
    by_cases hi : i < 0
    · have hser : serJ (.num i) = '-' :: natDec i.natAbs := by simp [serJ, hi]
      rw [hser, List.cons_append]
      have c1 : ¬(('-' : Char) = 'n') := by decide
      have c2 : ¬(('-' : Char) = 't') := by decide
      have c3 : ¬(('-' : Char) = 'f') := by decide
      have c4 : ¬(('-' : Char) = dqC) := by decide
      have c5 : ¬(('-' : Char) = '[') := by decide
      have c6 : ¬(('-' : Char) = lbC) := by decide
      simp only [parseJ, c1, c2, c3, c4, c5, c6, if_false, ite_false, ite_true,
        eq_self_iff_true, if_true]
      rw [parseNum_natDec _ _ hrest]
      simp only [Option.map_some']
      have : (-(i.natAbs : Int)) = i := by omega
      rw [this]
    · have hser : serJ (.num i) = natDec i.toNat := by simp [serJ, hi]
      obtain ⟨d, t, ht, hd⟩ := natDec_head i.toNat
      obtain ⟨c1, c2, c3, c4, c5, c6, c7⟩ := digitChar_notKey d hd
      rw [hser, ht, List.cons_append]
      simp only [parseJ, c1, c2, c3, c4, c5, c6, c7, if_false, ite_false]
      rw [← List.cons_append, ← ht, parseNum_natDec _ _ hrest]
      simp only [Option.map_some']
      have : ((i.toNat : Int)) = i := Int.toNat_of_nonneg (by omega)
      rw [this]
  | str s =>
    have c1 : ¬(dqC = 'n') := by decide
    have c2 : ¬(dqC = 't') := by decide
    have c3 : ¬(dqC = 'f') := by decide
    rw [show serJ (.str s) ++ rest = dqC :: (escBody s.data ++ dqC :: rest) by
      simp [serJ, serStr]]
    simp only [parseJ, c1, c2, c3, if_false, ite_false, eq_self_iff_true, if_true, ite_true]
    rw [parseStrBody_escBody]
    simp only [Option.map_some']
  | arr xs =>
    have c1 : ¬(('[' : Char) = 'n') := by decide
    have c2 : ¬(('[' : Char) = 't') := by decide
    have c3 : ¬(('[' : Char) = 'f') := by decide
    have c4 : ¬(('[' : Char) = dqC) := by decide
    cases xs with
    | nil =>
      rw [show serJ (.arr []) ++ rest = '[' :: ']' :: rest by simp [serJ, serL]]
      simp only [parseJ, c1, c2, c3, c4, if_false, ite_false, eq_self_iff_true, if_true,
        ite_true]
      simp [parseArrTop]
    | cons x t =>
      have hX : ∃ X, serL (x :: t) = serJ x ++ X := by
        cases t with
        | nil => exact ⟨[], by simp [serL]⟩
        | cons y t₂ => exact ⟨',' :: serL (y :: t₂), by simp [serL]⟩
      obtain ⟨X, hXe⟩ := hX
      obtain ⟨ch, cr, hch, hne1, hne2, hne3⟩ := serJ_head x
      rw [show serJ (.arr (x :: t)) ++ rest = '[' :: (serL (x :: t) ++ ']' :: rest) by
        simp [serJ]]
      simp only [parseJ, c1, c2, c3, c4, if_false, ite_false, eq_self_iff_true, if_true,
        ite_true]
      rw [show serL (x :: t) ++ ']' :: rest = ch :: (cr ++ X ++ ']' :: rest) by
        rw [hXe, hch]; simp]
      simp only [parseArrTop, hne1, if_false, ite_false]
      rw [show ch :: (cr ++ X ++ ']' :: rest) = serL (x :: t) ++ ']' :: rest by
        rw [hXe, hch]; simp]
      rw [roundArr (x :: t) (List.cons_ne_nil x t) f₁ rest (by simp [jfuel] at hf; omega)]
      rfl
  | obj fs =>
    have c1 : ¬(lbC = 'n') := by decide
    have c2 : ¬(lbC = 't') := by decide
    have c3 : ¬(lbC = 'f') := by decide
    have c4 : ¬(lbC = dqC) := by decide
    have c5 : ¬(lbC = '[') := by decide
    cases fs with
    | nil =>
      rw [show serJ (.obj []) ++ rest = lbC :: rbC :: rest by simp [serJ, serM]]
      simp only [parseJ, c1, c2, c3, c4, c5, if_false, ite_false, eq_self_iff_true, if_true,
        ite_true]
      simp [parseObjTop]
    | cons m t =>
      have hX : ∃ X, serM (m :: t) = dqC :: X := by
        obtain ⟨k, v⟩ := m
        cases t with
        | nil => exact ⟨escBody k.data ++ [dqC] ++ ':' :: serJ v, by simp [serM, serStr]⟩
        | cons m₂ t₂ =>
          exact ⟨escBody k.data ++ [dqC] ++ ':' :: serJ v ++ ',' :: serM (m₂ :: t₂),
            by simp [serM, serStr]⟩
      obtain ⟨X, hXe⟩ := hX
      have hne : ¬(dqC = rbC) := by decide
      rw [show serJ (.obj (m :: t)) ++ rest = lbC :: (serM (m :: t) ++ rbC :: rest) by
        simp [serJ]]
      simp only [parseJ, c1, c2, c3, c4, c5, if_false, ite_false, eq_self_iff_true, if_true,
        ite_true]
      rw [show serM (m :: t) ++ rbC :: rest = dqC :: (X ++ rbC :: rest) by rw [hXe]; simp]
      simp only [parseObjTop, hne, if_false, ite_false]
      rw [show dqC :: (X ++ rbC :: rest) = serM (m :: t) ++ rbC :: rest by rw [hXe]; simp]
      rw [roundObj (m :: t) (List.cons_ne_nil m t) f₁ rest (by simp [jfuel] at hf; omega)]
      rfl

theorem roundArr (xs : List Json) (hne : xs ≠ []) : ∀ (f : Nat) (rest : List Char),
    jfuelL xs ≤ f → parseArr f (serL xs ++ ']' :: rest) = some (xs, rest) := by
  intro f rest hf
  match xs with
  | [] => exact absurd rfl hne
  | x :: t =>
    obtain ⟨f₁, rfl⟩ : ∃ f₁, f = f₁ + 1 := by
      simp [jfuelL] at hf
      exact ⟨f - 1, by omega⟩
    cases t with
    | nil =>
      rw [show serL [x] ++ ']' :: rest = serJ x ++ ']' :: rest by simp [serL]]
      rw [parseArr, roundJ x f₁ (']' :: rest) (by simp [jfuelL, jfuel] at hf ⊢; omega)
        (okTail_cons _ _ digitVal_rbracket)]
      have hcm : ¬((']' : Char) = ',') := by decide
      simp [parseArrSep, hcm]
    | cons y t₂ =>
      rw [show serL (x :: y :: t₂) ++ ']' :: rest =
        serJ x ++ (',' :: (serL (y :: t₂) ++ ']' :: rest)) by simp [serL]]
      rw [parseArr, roundJ x f₁ _ (by simp [jfuelL, jfuel] at hf ⊢; omega)
        (okTail_cons _ _ digitVal_comma)]
      simp only [parseArrSep, eq_self_iff_true, if_true, ite_true]
      rw [roundArr (y :: t₂) (List.cons_ne_nil y t₂) f₁ rest (by simp [jfuelL] at hf ⊢; omega)]
      rfl

theorem roundObj (fs : List (String × Json)) (hne : fs ≠ []) : ∀ (f : Nat) (rest : List Char),
    jfuelM fs ≤ f → parseObj f (serM fs ++ rbC :: rest) = some (fs, rest) := by
  intro f rest hf
  match fs with
  | [] => exact absurd rfl hne
  | (k, v) :: t =>
    obtain ⟨f₁, rfl⟩ : ∃ f₁, f = f₁ + 1 := by
      simp [jfuelM] at hf
      exact ⟨f - 1, by omega⟩
    have hcolon : ¬((':' : Char) = ',') := by decide
    cases t with
    | nil =>
      rw [show serM [(k, v)] ++ rbC :: rest =
        dqC :: (escBody k.data ++ dqC :: (':' :: (serJ v ++ rbC :: rest))) by
          simp [serM, serStr]]
      simp only [parseObj, eq_self_iff_true, if_true, ite_true]
      rw [parseStrBody_escBody]
      simp only [parseObjColon, eq_self_iff_true, if_true, ite_true]
      rw [parseObjVal, roundJ v f₁ _ (by simp [jfuelM, jfuel] at hf ⊢; omega)
        (okTail_cons _ _ digitVal_rbrace)]
      have hcm : ¬(rbC = ',') := by decide
      simp [parseObjSep, hcm]
    | cons m₂ t₂ =>
      rw [show serM ((k, v) :: m₂ :: t₂) ++ rbC :: rest =
        dqC :: (escBody k.data ++ dqC ::
          (':' :: (serJ v ++ ',' :: (serM (m₂ :: t₂) ++ rbC :: rest)))) by
          simp [serM, serStr]]
      simp only [parseObj, eq_self_iff_true, if_true, ite_true]
      rw [parseStrBody_escBody]
      simp only [parseObjColon, eq_self_iff_true, if_true, ite_true]
      rw [parseObjVal, roundJ v f₁ _ (by simp [jfuelM, jfuel] at hf ⊢; omega)
        (okTail_cons _ _ digitVal_comma)]
      simp only [parseObjSep, eq_self_iff_true, if_true, ite_true]
      rw [roundObj (m₂ :: t₂) (List.cons_ne_nil m₂ t₂) f₁ rest
        (by simp [jfuelM] at hf ⊢; omega)]
      rfl

end

/-! ## JS runtime values and the replay queue -/

/-- A JS value as it appears in the hydration-dispatch semantics. -/
inductive JSVal where
  | undefinedV
  | nullv
  | boolv (b : Bool)
  | numv (n : Int)
  | strv (s : String)
  | arrv (xs : List JSVal)
  | objv (fs : List (String × JSVal))
  | closure (src : String)
  | domNode (id : Nat)
  | domEvent (id : Nat)
  | ref (a : Nat)

mutual

/-- The JS value a JSON literal evaluates to. -/
def jsonToVal : Json → JSVal
  | .null => .nullv
  | .bool b => .boolv b
  | .num n => .numv n
  | .str s => .strv s
  | .arr xs => .arrv (jsonToValL xs)
  | .obj fs => .objv (jsonToValM fs)

/-- Elementwise `jsonToVal`. -/
def jsonToValL : List Json → List JSVal
  | [] => []
  | x :: t => jsonToVal x :: jsonToValL t

/-- Memberwise `jsonToVal`. -/
def jsonToValM : List (String × Json) → List (String × JSVal)
  | [] => []
  | (k, v) :: t => (k, jsonToVal v) :: jsonToValM t

end

/-- An entry of `window.dispatcher.toReplay`:
`\x7bname, handler, args, target, event\x7d`. -/
structure ReplayEntry where
  name : JSVal
  handler : JSVal
  args : JSVal
  target : JSVal
  event : JSVal

/-- A JS function value as `ssrDispatch` receives it: its source text
(what template-literal interpolation turns it into) and its runtime
behavior, which `ssrDispatch` never invokes. -/
structure Handler where
  src : String
  sem : JSVal → JSVal → List ReplayEntry → List ReplayEntry

/-! ## The `ssrDispatch` template string

`ssrDispatch` in `server.mjs` is a template literal; these constants
are its fixed segments, written with `\x7b`, `\x7d`, `\x27` for the
braces and the single quote. -/

/-- Template up to and including the opening quote of the name. -/
def tplA : String := "\x7b\n    const name = \x27"

/-- The closing quote of the name, written by the generator. -/
def sqS : String := "\x27"

/-- Template from after the name quote up to and including the opening
paren around the handler. -/
def tplB : String := ";\n    const handler = ("

/-- The closing paren after the handler source. -/
def rpS : String := ")"

/-- Template between the handler and the serialized args. -/
def tplC : String := ";\n    const args = "

/-- Template from after the args to the end: the push statement and the
closing brace. -/
def tplD : String := ";\n    window.dispatcher.toReplay.push(\x7b\n        name,\n        handler,\n        args,\n        target: this,\n        event,\n    \x7d);\n\x7d"

/-- The embedding of `ssrDispatch (_name, _handler, ..._args)`: the
template literal of `server.mjs`, interpolating the name verbatim, the
handler through its source text, and the arguments through
`JSON.stringify`. -/
def ssrDispatch (name : String) (handler : Handler) (args : List Json) : String :=
  tplA ++ name ++ sqS ++ tplB ++ handler.src ++ rpS ++ tplC ++
    jsonStringifyArgs args ++ tplD

/-! ## Parsing the emitted inline-handler code

The browser parses the emitted string as the body of an inline event
handler and executes whatever JS it contains — `ssrDispatch`
interpolates the name into a single-quoted literal without escaping, so
a crafted name yields code beyond the intended template.  The grammar
below covers a statement-level fragment wide enough to contain both the
well-formed template (three `const` declarations and the
`window.dispatcher.toReplay.push` call) and the quote-closing
injections a name can produce: extra `const` declarations whose
initializer is a single-quoted string, a `+`-concatenation of such
strings, a parenthesized function expression or a JSON literal, and
assignments to `window.dispatcher.toReplay.length`, which truncate the
queue.  A string outside this fragment — for instance a name whose lone
quote leaves an unterminated literal, a genuine JS syntax error — fails
to parse; the model treats such a string as inert. -/

/-- Parse a single-quoted JS string literal body (no escape support, as
the generator performs no escaping); consumes the closing quote.  Fails
on a backslash or a line terminator, which the generator would emit
verbatim and which change or break the literal in JS. -/
def parseSQ : List Char → Option (List Char × List Char)
  | [] => none
  | c :: cs =>
    if c = sqC then some ([], cs)
    else if c = bsC ∨ c = Char.ofNat 10 ∨ c = Char.ofNat 13 then none
    else (parseSQ cs).map (fun p => (c :: p.1, p.2))

/-- A character the paren-scanner refuses inside a handler source:
quotes and backslashes, whose JS string semantics the scanner does not
model. -/
def badSrcChar (c : Char) : Bool :=
  c = sqC || c = dqC || c = btC || c = bsC

/-- Scan a parenthesized expression body: collect characters, tracking
paren depth, up to the closing paren of the surrounding group (which is
consumed). -/
def parseParen : Nat → List Char → Option (List Char × List Char)
  | _, [] => none
  | depth, c :: cs =>
    if badSrcChar c then none
    else if c = '(' then (parseParen (depth + 1) cs).map (fun p => (c :: p.1, p.2))
    else if c = ')' then
      match depth with
      | 0 => some ([], cs)
      | d + 1 => (parseParen d cs).map (fun p => (c :: p.1, p.2))
    else (parseParen depth cs).map (fun p => (c :: p.1, p.2))

/-- Depth scan of a handler source: `some e` when the scan ends at
depth `e` without a bad character or a premature close. -/
def srcScan : Nat → List Char → Option Nat
  | d, [] => some d
  | d, c :: cs =>
    if badSrcChar c then none
    else if c = '(' then srcScan (d + 1) cs
    else if c = ')' then
      match d with
      | 0 => none
      | e + 1 => srcScan e cs
    else srcScan d cs

/-- A handler source is well formed for embedding when its parens are
balanced and it contains no quote or backslash characters. -/
def SrcOK (s : String) : Prop := srcScan 0 s.data = some 0

/-- A name is well formed for embedding in a single-quoted literal when
it contains no single quote, backslash, or line terminator. -/
def nameOKb (s : String) : Bool :=
  s.data.all (fun c => !(c == sqC || c == bsC || c == Char.ofNat 10 || c == Char.ofNat 13))

/-! ## The abstract syntax the emitted block parses to -/

/-- Field-name constants used by the emitted code. -/
def kName : String := "name"

/-- The `handler` identifier. -/
def kHandler : String := "handler"

/-- The `args` identifier. -/
def kArgs : String := "args"

/-- The `target` key. -/
def kTarget : String := "target"

/-- The `event` identifier (bound by the browser in an inline handler). -/
def kEvent : String := "event"

/-- Expressions of the emitted fragment; `strCat` is a `+`-chain of
single-quoted literals, as a quote-closing name interpolation produces. -/
inductive JExpr where
  | strLit (s : String)
  | strCat (ss : List String)
  | funParen (src : String)
  | jsonLit (j : Json)
  | ident (x : String)
  | thisE

/-- Statements of the emitted fragment: a `const` declaration, an
assignment of a literal number to `window.dispatcher.toReplay.length`
(which truncates the queue in JS), or the
`window.dispatcher.toReplay.push(\x7b...\x7d)` call with its field list. -/
inductive JStmt where
  | constDecl (x : String) (e : JExpr)
  | lenAssign (n : Nat)
  | pushReplay (fields : List (String × JExpr))

/-- The field list of the emitted push statement:
`name, handler, args, target: this, event`. -/
def pushFields : List (String × JExpr) :=
  [(kName, .ident kName), (kHandler, .ident kHandler), (kArgs, .ident kArgs),
   (kTarget, .thisE), (kEvent, .ident kEvent)]

/-- JS whitespace the fragment's statements are separated by. -/
def isWSc (c : Char) : Bool :=
  c = ' ' || c = Char.ofNat 10 || c = Char.ofNat 9 || c = Char.ofNat 13

/-- Skip leading whitespace. -/
def skipWS : List Char → List Char
  | [] => []
  | c :: cs => if isWSc c then skipWS cs else c :: cs

/-- Identifier-start characters (letters, underscore, dollar). -/
def isIdentStart (c : Char) : Bool :=
  (65 ≤ c.toNat && c.toNat ≤ 90) || (97 ≤ c.toNat && c.toNat ≤ 122) ||
    c = '_' || c = Char.ofNat 36

/-- Identifier-continuation characters. -/
def isIdentChar (c : Char) : Bool :=
  isIdentStart c || (48 ≤ c.toNat && c.toNat ≤ 57)

/-- Collect a maximal run of identifier-continuation characters. -/
def takeIdent : List Char → List Char × List Char
  | [] => ([], [])
  | c :: cs =>
    if isIdentChar c then
      let p := takeIdent cs
      (c :: p.1, p.2)
    else ([], c :: cs)

/-- Parse an identifier. -/
def parseIdent : List Char → Option (String × List Char)
  | [] => none
  | c :: cs =>
    if isIdentStart c then
      let p := takeIdent cs
      some (String.mk (c :: p.1), p.2)
    else none

/-- After a parsed single-quoted literal, consume a chain of
`+ \x27lit\x27` continuations; stops (consuming nothing further) when
the next token is not `+`. -/
def parseStrTail : Nat → List String → List Char → Option (List String × List Char)
  | 0, _, _ => none
  | f + 1, acc, cs =>
    match skipWS cs with
    | [] => some (acc, cs)
    | c :: r =>
      if c = '+' then
        match skipWS r with
        | [] => none
        | c₂ :: r₂ =>
          if c₂ = sqC then
            match parseSQ r₂ with
            | none => none
            | some (s, r₃) => parseStrTail f (acc ++ [String.mk s]) r₃
          else none
      else some (acc, cs)

/-- One literal gives `strLit`, a chain gives `strCat`. -/
def mkStrExpr : List String → JExpr
  | [s] => .strLit s
  | ss => .strCat ss

/-- Parse an initializer expression: a single-quoted string (possibly a
`+`-chain of them), a parenthesized function expression, or a JSON
literal. -/
def parseExprJS (cs : List Char) : Option (JExpr × List Char) :=
  match cs with
  | [] => none
  | c :: r =>
    if c = sqC then
      match parseSQ r with
      | none => none
      | some (s, r₁) =>
        match parseStrTail cs.length [String.mk s] r₁ with
        | none => none
        | some (ss, r₂) => some (mkStrExpr ss, r₂)
    else if c = '(' then
      match parseParen 0 r with
      | none => none
      | some (src, r₁) => some (.funParen (String.mk src), r₁)
    else
      match parseJ cs.length cs with
      | none => none
      | some (j, r₁) => some (.jsonLit j, r₁)

/-- The `const` keyword with its separating blank. -/
def kwConst : String := "const "

/-- The member chain reaching the global replay queue. -/
def wPre : String := "window.dispatcher.toReplay."

/-- The head of the push call. -/
def wPush : String := "push("

/-- The `length` property of the queue array. -/
def wLen : String := "length"

/-- The fixed text of the push call after `push(`: the template's
object literal and the call's close. -/
def pushTailS : String :=
  "\x7b\n        name,\n        handler,\n        args,\n        target: this,\n        event,\n    \x7d);"

/-- Parse the remainder of a `const` declaration, after the keyword. -/
def parseConstTail (cs : List Char) : Option (JStmt × List Char) :=
  match parseIdent (skipWS cs) with
  | none => none
  | some (x, r₁) =>
    match skipWS r₁ with
    | [] => none
    | c :: r₂ =>
      if c = '=' then
        match parseExprJS (skipWS r₂) with
        | none => none
        | some (e, r₃) =>
          match skipWS r₃ with
          | [] => none
          | c₂ :: r₄ => if c₂ = ';' then some (.constDecl x e, r₄) else none
      else none

/-- Parse the remainder of a queue statement, after
`window.dispatcher.toReplay.`: the template's push call, or an
assignment to `length`. -/
def parseWinTail (cs : List Char) : Option (JStmt × List Char) :=
  match expectL wPush.data cs with
  | some r =>
    match expectL pushTailS.data r with
    | some r₁ => some (.pushReplay pushFields, r₁)
    | none => none
  | none =>
    match expectL wLen.data cs with
    | none => none
    | some r =>
      match skipWS r with
      | [] => none
      | c :: r₁ =>
        if c = '=' then
          match parseNum (skipWS r₁) with
          | none => none
          | some (n, r₂) =>
            match skipWS r₂ with
            | [] => none
            | c₂ :: r₃ => if c₂ = ';' then some (.lenAssign n, r₃) else none
        else none

/-- Parse one statement of the fragment. -/
def parseStmt (cs : List Char) : Option (JStmt × List Char) :=
  match expectL kwConst.data cs with
  | some r => parseConstTail r
  | none =>
    match expectL wPre.data cs with
    | some r => parseWinTail r
    | none => none

/-- Parse statements up to the closing brace of the block, which is
consumed; `f` is recursion fuel. -/
def parseStmts : Nat → List Char → Option (List JStmt × List Char)
  | 0, _ => none
  | f + 1, cs =>
    match skipWS cs with
    | [] => none
    | c :: r =>
      if c = rbC then some ([], r)
      else
        match parseStmt (c :: r) with
        | none => none
        | some (s, r₁) =>
          match parseStmts f r₁ with
          | none => none
          | some p => some (s :: p.1, p.2)

/-- Parse the whole emitted block: a braced statement list of the
fragment above, consuming the entire string. -/
def parseInline (cs : List Char) : Option (List JStmt) :=
  match cs with
  | [] => none
  | c :: r =>
    if c = lbC then
      match parseStmts (r.length + 1) r with
      | none => none
      | some p => if p.2.isEmpty then some p.1 else none
    else none

/-! ## Browser-evaluation semantics of the parsed block -/

/-- The ambient bindings of an inline event handler: `this` is the DOM
node carrying the attribute, `event` the DOM event. -/
structure EvalCtx where
  target : JSVal
  event : JSVal

/-- Observable effects of evaluating the block. -/
inductive Eff where
  | push (e : ReplayEntry)
  | setLen (n : Nat)
  | callFn (f : JSVal)

/-- Evaluate an expression under the block-local environment and the
inline-handler context. -/
def evalExpr (ctx : EvalCtx) (env : List (String × JSVal)) : JExpr → Option JSVal
  | .strLit s => some (.strv s)
  | .strCat ss => some (.strv (String.join ss))
  | .funParen src => some (.closure src)
  | .jsonLit j => some (jsonToVal j)
  | .ident x =>
    match env.lookup x with
    | some v => some v
    | none => if x = kEvent then some ctx.event else none
  | .thisE => some ctx.target

/-- Evaluate an object-literal field list, left to right. -/
def evalFields (ctx : EvalCtx) (env : List (String × JSVal)) :
    List (String × JExpr) → Option (List (String × JSVal))
  | [] => some []
  | (k, e) :: t =>
    match evalExpr ctx env e with
    | none => none
    | some v => (evalFields ctx env t).map (fun vs => (k, v) :: vs)

/-- Build the replay entry from the evaluated field list. -/
def mkEntry (fs : List (String × JSVal)) : ReplayEntry where
  name := (fs.lookup kName).getD .undefinedV
  handler := (fs.lookup kHandler).getD .undefinedV
  args := (fs.lookup kArgs).getD .undefinedV
  target := (fs.lookup kTarget).getD .undefinedV
  event := (fs.lookup kEvent).getD .undefinedV

/-- Interpreter state: the global `toReplay` queue, the block-local
environment, and the effect trace. -/
structure ExecSt where
  queue : List ReplayEntry
  env : List (String × JSVal)
  trace : List Eff

/-- Execute one statement.  A `const` extends the environment; a
`length` assignment truncates the queue, as it does on a JS array; the
push statement appends one entry to `window.dispatcher.toReplay`. -/
def execStmt (ctx : EvalCtx) (st : ExecSt) : JStmt → Option ExecSt
  | .constDecl x e =>
    (evalExpr ctx st.env e).map (fun v => { st with env := (x, v) :: st.env })
  | .lenAssign n =>
    some { st with queue := st.queue.take n, trace := st.trace ++ [.setLen n] }
  | .pushReplay fs =>
    (evalFields ctx st.env fs).map (fun vs =>
      let e := mkEntry vs
      { st with queue := st.queue ++ [e], trace := st.trace ++ [.push e] })

/-- Execute the block against a given queue; returns the final queue
and the effect trace. -/
def execBlock (ctx : EvalCtx) (stmts : List JStmt) (q : List ReplayEntry) :
    Option (List ReplayEntry × List Eff) :=
  (stmts.foldlM (execStmt ctx) ⟨q, [], []⟩).map (fun st => (st.queue, st.trace))

/-- Browser evaluation of an inline-handler string against the global
queue: parse it as the statement fragment above and run it.  A string
the fragment does not cover does nothing (`none`); the fragment is wide
enough to include the well-formed template as well as the quote-closing
name injections studied below (string concatenation, queue truncation,
extra declarations). -/
def evalInline (s : String) (ctx : EvalCtx) (q : List ReplayEntry) :
    Option (List ReplayEntry × List Eff) :=
  match parseInline s.data with
  | none => none
  | some stmts => execBlock ctx stmts q

/-- The replay entry the emitted handler pushes. -/
def dispatchEntry (name : String) (h : Handler) (args : List Json) (ctx : EvalCtx) :
    ReplayEntry :=
  ⟨.strv name, .closure h.src, jsonToVal (.arr args), ctx.target, ctx.event⟩

/-! ## The emitted string parses back to the intended block -/

theorem string_mk_data (s : String) : String.mk s.data = s := rfl

theorem parseSQ_append (nm : List Char) (rest : List Char)
    (h : (nm.all fun c =>
      !(c == sqC || c == bsC || c == Char.ofNat 10 || c == Char.ofNat 13)) = true) :
    parseSQ (nm ++ sqC :: rest) = some (nm, rest) := by
  induction nm with
  | nil => simp [parseSQ]
  | cons c t ih =>
    simp only [List.all_cons, Bool.and_eq_true, Bool.not_eq_true', Bool.or_eq_false_iff,
      beq_eq_false_iff_ne, ne_eq] at h
    obtain ⟨⟨⟨⟨h1, h2⟩, h3⟩, h4⟩, ht⟩ := h
    have hcond : ¬(c = bsC ∨ c = Char.ofNat 10 ∨ c = Char.ofNat 13) := by
      push_neg
      exact ⟨h2, h3, h4⟩
    rw [List.cons_append]
    simp only [parseSQ, h1, hcond, if_false, ite_false]
    rw [ih (by simpa using ht)]
    rfl

theorem parseParen_scan (src : List Char) : ∀ (d e : Nat) (tail : List Char),
    srcScan d src = some e →
    parseParen d (src ++ tail) = (parseParen e tail).map (fun p => (src ++ p.1, p.2)) := by
  induction src with
  | nil =>
    intro d e tail h
    simp only [srcScan, Option.some.injEq] at h
    subst h
    cases hp : parseParen d tail with
    | none => simp [hp]
    | some p => simp [hp]
  | cons c t ih =>
    intro d e tail h
    simp only [srcScan] at h
    by_cases hb : badSrcChar c = true
    · rw [if_pos hb] at h
      exact absurd h (by simp)
    · rw [if_neg hb] at h
      by_cases hp : c = '('
      · subst hp
        rw [if_pos rfl] at h
        rw [List.cons_append]
        simp only [parseParen, hb, if_false, ite_false, if_pos rfl, ite_true,
          Bool.false_eq_true]
        rw [ih _ _ tail h]
        cases parseParen e tail <;> simp
      · by_cases hq : c = ')'
        · subst hq
          rw [if_neg hp, if_pos rfl] at h
          cases d with
          | zero => exact absurd h (by simp)
          | succ d₁ =>
            rw [List.cons_append]
            have hq' : ¬((')' : Char) = '(') := by decide
            simp only [parseParen, hb, hq', if_false, ite_false, if_pos rfl, ite_true,
              Bool.false_eq_true]
            rw [ih _ _ tail h]
            cases parseParen e tail <;> simp
        · rw [if_neg hp, if_neg hq] at h
          rw [List.cons_append]
          simp only [parseParen, hb, hp, hq, if_false, ite_false, Bool.false_eq_true]
          rw [ih _ _ tail h]
          cases parseParen e tail <;> simp

theorem parseParen_ok (src : String) (hs : SrcOK src) (tail : List Char) :
    parseParen 0 (src.data ++ ')' :: tail) = some (src.data, tail) := by
  rw [parseParen_scan src.data 0 0 (')' :: tail) hs]
  have hb : badSrcChar ')' = false := by decide
  have hq : ¬((')' : Char) = '(') := by decide
  simp [parseParen, hb, hq]

mutual

theorem jfuel_le_ser (j : Json) : jfuel j ≤ (serJ j).length := by
  cases j with
  | null => simp [jfuel, serJ, litNull]
  | bool b => cases b <;> simp [jfuel, serJ, litTrue, litFalse]
  | num i =>
    by_cases hi : i < 0
    · obtain ⟨d, t, ht, -⟩ := natDec_head i.natAbs
      simp [jfuel, serJ, hi, ht]
    · obtain ⟨d, t, ht, -⟩ := natDec_head i.toNat
      simp [jfuel, serJ, hi, ht]
  | str s =>
    simp [jfuel, serJ, serStr]
  | arr xs =>
    have := jfuelL_le_ser xs
    simp only [jfuel, serJ, List.length_cons, List.length_append]
    omega
  | obj fs =>
    have := jfuelM_le_ser fs
    simp only [jfuel, serJ, List.length_cons, List.length_append]
    omega

theorem jfuelL_le_ser (xs : List Json) : jfuelL xs ≤ (serL xs).length + 1 := by
  match xs with
  | [] => simp [jfuelL]
  | [x] =>
    have := jfuel_le_ser x
    simp only [jfuelL, serL]
    omega
  | x :: y :: t =>
    have h1 := jfuel_le_ser x
    have h2 := jfuelL_le_ser (y :: t)
    simp only [jfuelL, serL, List.length_append, List.length_cons] at h2 ⊢
    omega

theorem jfuelM_le_ser (fs : List (String × Json)) : jfuelM fs ≤ (serM fs).length + 1 := by
  match fs with
  | [] => simp [jfuelM]
  | [(k, v)] =>
    have := jfuel_le_ser v
    simp only [jfuelM, serM, List.length_append, List.length_cons]
    omega
  | (k, v) :: m :: t =>
    have h1 := jfuel_le_ser v
    have h2 := jfuelM_le_ser (m :: t)
    simp only [jfuelM, serM, List.length_append, List.length_cons] at h2 ⊢
    omega

end

theorem sqS_data : sqS.data = [sqC] := by decide

theorem rpS_data : rpS.data = [')'] := by decide

theorem digitVal_semi : digitVal ';' = none := by decide

/-- The fixed tail of the emitted block, from the queue member chain to
the closing brace. -/
def wTail : List Char := wPre.data ++ (wPush.data ++ (pushTailS.data ++ ('\n' :: [rbC])))

theorem tplD_decomp : tplD.data = ';' :: '\n' :: ' ' :: ' ' :: ' ' :: ' ' :: wTail := by
  decide

/-- The emitted string, decomposed character by character around its
three interpolations. -/
theorem ssrDispatch_data (name : String) (h : Handler) (args : List Json) :
    (ssrDispatch name h args).data =
      lbC :: '\n' :: ' ' :: ' ' :: ' ' :: ' ' ::
      'c' :: 'o' :: 'n' :: 's' :: 't' :: ' ' ::
      'n' :: 'a' :: 'm' :: 'e' :: ' ' :: '=' :: ' ' :: sqC ::
      (name.data ++ sqC :: ';' :: '\n' :: ' ' :: ' ' :: ' ' :: ' ' ::
        'c' :: 'o' :: 'n' :: 's' :: 't' :: ' ' ::
        'h' :: 'a' :: 'n' :: 'd' :: 'l' :: 'e' :: 'r' :: ' ' :: '=' :: ' ' :: '(' ::
        (h.src.data ++ ')' :: ';' :: '\n' :: ' ' :: ' ' :: ' ' :: ' ' ::
          'c' :: 'o' :: 'n' :: 's' :: 't' :: ' ' ::
          'a' :: 'r' :: 'g' :: 's' :: ' ' :: '=' :: ' ' ::
          (serJ (.arr args) ++ ';' :: '\n' :: ' ' :: ' ' :: ' ' :: ' ' :: wTail))) := by
  rw [ssrDispatch]
  simp only [String.data_append, sqS_data, rpS_data, jsonStringifyArgs, tplD_decomp]
  rw [show tplA.data = lbC :: '\n' :: ' ' :: ' ' :: ' ' :: ' ' :: 'c' :: 'o' :: 'n' ::
    's' :: 't' :: ' ' :: 'n' :: 'a' :: 'm' :: 'e' :: ' ' :: '=' :: ' ' :: [sqC] from by decide]
  rw [show tplB.data = ';' :: '\n' :: ' ' :: ' ' :: ' ' :: ' ' :: 'c' :: 'o' :: 'n' ::
    's' :: 't' :: ' ' :: 'h' :: 'a' :: 'n' :: 'd' :: 'l' :: 'e' :: 'r' :: ' ' :: '=' ::
    ' ' :: ['('] from by decide]
  rw [show tplC.data = ';' :: '\n' :: ' ' :: ' ' :: ' ' :: ' ' :: 'c' :: 'o' :: 'n' ::
    's' :: 't' :: ' ' :: 'a' :: 'r' :: 'g' :: 's' :: ' ' :: '=' :: [' '] from by decide]
  simp [List.append_assoc]

/-- Reaching the closing brace ends the statement list. -/
theorem parseStmts_close (f : Nat) (cs r : List Char) (hws : skipWS cs = rbC :: r) :
    parseStmts (f + 1) cs = some ([], r) := by
  rw [parseStmts, hws]
  simp

/-- One step of the statement list: a parsed statement followed by a
parsed remainder. -/
theorem parseStmts_spec (f : Nat) (cs : List Char) (c : Char) (r : List Char)
    (s : JStmt) (r₁ : List Char) (ss : List JStmt) (r₂ : List Char)
    (hws : skipWS cs = c :: r) (hc : ¬c = rbC)
    (hstmt : parseStmt (c :: r) = some (s, r₁))
    (hrec : parseStmts f r₁ = some (ss, r₂)) :
    parseStmts (f + 1) cs = some (s :: ss, r₂) := by
  rw [parseStmts, hws]
  simp only [hc, if_false, ite_false]
  rw [hstmt]
  dsimp only
  rw [hrec]

/-- A `const ` prefix dispatches `parseStmt` to `parseConstTail`. -/
theorem parseStmt_const (cs : List Char) :
    parseStmt ('c' :: 'o' :: 'n' :: 's' :: 't' :: ' ' :: cs) = parseConstTail cs := rfl

/-- Assemble a `const` declaration from its parsed components. -/
theorem parseConstTail_spec (cs : List Char) (x : String) (r₁ r₂ : List Char)
    (e : JExpr) (r₃ r₄ : List Char)
    (h1 : parseIdent (skipWS cs) = some (x, r₁))
    (h2 : skipWS r₁ = '=' :: r₂)
    (h3 : parseExprJS (skipWS r₂) = some (e, r₃))
    (h4 : skipWS r₃ = ';' :: r₄) :
    parseConstTail cs = some (.constDecl x e, r₄) := by
  rw [parseConstTail, h1]
  dsimp only
  rw [h2]
  dsimp only
  rw [if_pos rfl, h3]
  dsimp only
  rw [h4]
  dsimp only
  rw [if_pos rfl]

/-- A clean single-quoted name interpolation parses to its literal. -/
theorem parseExprJS_name (name : String) (T : List Char) (hn : nameOKb name = true) :
    parseExprJS (sqC :: (name.data ++ sqC :: ';' :: T)) =
      some (.strLit name, ';' :: T) := by
  rw [parseExprJS]
  rw [if_pos rfl]
  rw [parseSQ_append name.data (';' :: T) (by rw [nameOKb] at hn; exact hn)]
  rfl

/-- A parenthesized handler-source interpolation parses to the function
expression. -/
theorem parseExprJS_fun (src : String) (T : List Char) (hs : SrcOK src) :
    parseExprJS ('(' :: (src.data ++ ')' :: T)) = some (.funParen src, T) := by
  rw [parseExprJS]
  rw [if_neg (by decide : ¬(('(' : Char) = sqC))]
  rw [if_pos rfl]
  rw [parseParen_ok src hs T]

/-- The serialized argument array parses to its JSON literal. -/
theorem parseExprJS_json (args : List Json) (T : List Char) :
    parseExprJS (serJ (.arr args) ++ ';' :: T) =
      some (.jsonLit (.arr args), ';' :: T) := by
  have hok : okTailB (';' :: T) = true := by simp [okTailB, digitVal_semi]
  have hfuel : jfuel (.arr args) ≤ (serJ (.arr args) ++ ';' :: T).length := by
    have := jfuel_le_ser (.arr args)
    simp only [List.length_append]
    omega
  have hser : serJ (Json.arr args) = '[' :: (serL args ++ [']']) := by simp [serJ]
  have hj : parseJ ((serJ (.arr args) ++ ';' :: T).length) (serJ (.arr args) ++ ';' :: T) =
      some (.arr args, ';' :: T) := roundJ (.arr args) _ _ hfuel hok
  rw [hser, List.cons_append] at hj ⊢
  rw [parseExprJS]
  rw [if_neg (by decide : ¬(('[' : Char) = sqC))]
  rw [if_neg (by decide : ¬(('[' : Char) = '('))]
  rw [hj]

/-- The template's name declaration parses as one statement. -/
theorem stmtName_spec (name : String) (T : List Char) (hn : nameOKb name = true) :
    parseStmt ('c' :: 'o' :: 'n' :: 's' :: 't' :: ' ' :: 'n' :: 'a' :: 'm' :: 'e' ::
        ' ' :: '=' :: ' ' :: sqC :: (name.data ++ sqC :: ';' :: T)) =
      some (.constDecl kName (.strLit name), T) := by
  rw [parseStmt_const]
  exact parseConstTail_spec
    ('n' :: 'a' :: 'm' :: 'e' :: ' ' :: '=' :: ' ' :: sqC :: (name.data ++ sqC :: ';' :: T))
    kName
    (' ' :: '=' :: ' ' :: sqC :: (name.data ++ sqC :: ';' :: T))
    (' ' :: sqC :: (name.data ++ sqC :: ';' :: T))
    (.strLit name)
    (';' :: T)
    T
    rfl rfl (parseExprJS_name name T hn) rfl

/-- The template's handler declaration parses as one statement. -/
theorem stmtHandler_spec (src : String) (T : List Char) (hs : SrcOK src) :
    parseStmt ('c' :: 'o' :: 'n' :: 's' :: 't' :: ' ' :: 'h' :: 'a' :: 'n' :: 'd' ::
        'l' :: 'e' :: 'r' :: ' ' :: '=' :: ' ' :: '(' :: (src.data ++ ')' :: ';' :: T)) =
      some (.constDecl kHandler (.funParen src), T) := by
  rw [parseStmt_const]
  exact parseConstTail_spec
    ('h' :: 'a' :: 'n' :: 'd' :: 'l' :: 'e' :: 'r' :: ' ' :: '=' :: ' ' :: '(' ::
      (src.data ++ ')' :: ';' :: T))
    kHandler
    (' ' :: '=' :: ' ' :: '(' :: (src.data ++ ')' :: ';' :: T))
    (' ' :: '(' :: (src.data ++ ')' :: ';' :: T))
    (.funParen src)
    (';' :: T)
    T
    rfl rfl (parseExprJS_fun src (';' :: T) hs) rfl

/-- The template's args declaration parses as one statement. -/
theorem stmtArgs_spec (args : List Json) (T : List Char) :
    parseStmt ('c' :: 'o' :: 'n' :: 's' :: 't' :: ' ' :: 'a' :: 'r' :: 'g' :: 's' ::
        ' ' :: '=' :: ' ' :: (serJ (.arr args) ++ ';' :: T)) =
      some (.constDecl kArgs (.jsonLit (.arr args)), T) := by
  have hskip : skipWS (serJ (Json.arr args) ++ ';' :: T) =
      serJ (Json.arr args) ++ ';' :: T := by
    have hw : isWSc '[' = false := by decide
    rw [show serJ (Json.arr args) = '[' :: (serL args ++ [']']) from by simp [serJ]]
    rw [List.cons_append, skipWS]
    simp [hw]
  have hexpr : parseExprJS (skipWS (serJ (Json.arr args) ++ ';' :: T)) =
      some (JExpr.jsonLit (Json.arr args), ';' :: T) := by
    rw [hskip]
    exact parseExprJS_json args T
  rw [parseStmt_const]
  exact parseConstTail_spec
    ('a' :: 'r' :: 'g' :: 's' :: ' ' :: '=' :: ' ' :: (serJ (.arr args) ++ ';' :: T))
    kArgs
    (' ' :: '=' :: ' ' :: (serJ (.arr args) ++ ';' :: T))
    (' ' :: (serJ (.arr args) ++ ';' :: T))
    (.jsonLit (.arr args))
    (';' :: T)
    T
    rfl rfl hexpr rfl

/-- The template's push statement parses, leaving the given tail. -/
theorem stmtPush_spec (T : List Char) :
    parseStmt (wPre.data ++ (wPush.data ++ (pushTailS.data ++ T))) =
      some (.pushReplay pushFields, T) := rfl

/-- The body of a well-formed emission parses as the four template
statements followed by the block close, at any sufficient fuel. -/
theorem parseStmts_template (name : String) (h : Handler) (args : List Json) (f : Nat)
    (hf : 5 ≤ f) (hn : nameOKb name = true) (hs : SrcOK h.src) :
    parseStmts f
      ('\n' :: ' ' :: ' ' :: ' ' :: ' ' ::
        'c' :: 'o' :: 'n' :: 's' :: 't' :: ' ' ::
        'n' :: 'a' :: 'm' :: 'e' :: ' ' :: '=' :: ' ' :: sqC ::
        (name.data ++ sqC :: ';' :: '\n' :: ' ' :: ' ' :: ' ' :: ' ' ::
          'c' :: 'o' :: 'n' :: 's' :: 't' :: ' ' ::
          'h' :: 'a' :: 'n' :: 'd' :: 'l' :: 'e' :: 'r' :: ' ' :: '=' :: ' ' :: '(' ::
          (h.src.data ++ ')' :: ';' :: '\n' :: ' ' :: ' ' :: ' ' :: ' ' ::
            'c' :: 'o' :: 'n' :: 's' :: 't' :: ' ' ::
            'a' :: 'r' :: 'g' :: 's' :: ' ' :: '=' :: ' ' ::
            (serJ (.arr args) ++ ';' :: '\n' :: ' ' :: ' ' :: ' ' :: ' ' :: wTail)))) =
      some ([JStmt.constDecl kName (.strLit name),
             JStmt.constDecl kHandler (.funParen h.src),
             JStmt.constDecl kArgs (.jsonLit (.arr args)),
             JStmt.pushReplay pushFields], []) := by
  obtain ⟨m, rfl⟩ : ∃ m, f = m + 5 := ⟨f - 5, by omega⟩
  refine parseStmts_spec _ _ _ _ _ _ _ _ rfl (by decide) (stmtName_spec name _ hn) ?_
  refine parseStmts_spec _ _ _ _ _ _ _ _ rfl (by decide) (stmtHandler_spec h.src _ hs) ?_
  refine parseStmts_spec _ _ _ _ _ _ _ _ rfl (by decide) (stmtArgs_spec args _) ?_
  refine parseStmts_spec _ _ _ _ _ _ _ _ rfl (by decide) (stmtPush_spec _) ?_
  exact parseStmts_close m _ [] rfl

/-- The string `ssrDispatch` emits parses back, for an embeddable name
and handler source, to exactly the three declarations and the push
statement of the template. -/
theorem parseInline_ssrDispatch (name : String) (h : Handler) (args : List Json)
    (hn : nameOKb name = true) (hs : SrcOK h.src) :
    parseInline (ssrDispatch name h args).data =
      some [JStmt.constDecl kName (.strLit name),
            JStmt.constDecl kHandler (.funParen h.src),
            JStmt.constDecl kArgs (.jsonLit (.arr args)),
            JStmt.pushReplay pushFields] := by
  rw [ssrDispatch_data, parseInline]
  rw [if_pos rfl]
  rw [parseStmts_template name h args _
    (by simp only [List.length_cons, List.length_append]; omega) hn hs]
  rfl

/-- Executing the parsed template block performs exactly one push of
the entry built from the three declared constants, `this`, and `event`. -/
theorem execBlock_tpl (ctx : EvalCtx) (q : List ReplayEntry) (name src : String) (j : Json) :
    execBlock ctx [JStmt.constDecl kName (.strLit name),
      JStmt.constDecl kHandler (.funParen src),
      JStmt.constDecl kArgs (.jsonLit j),
      JStmt.pushReplay pushFields] q =
      some (q ++ [⟨.strv name, .closure src, jsonToVal j, ctx.target, ctx.event⟩],
        [.push ⟨.strv name, .closure src, jsonToVal j, ctx.target, ctx.event⟩]) := by
  simp [execBlock, execStmt, evalExpr, evalFields, mkEntry, pushFields, List.foldlM,
    List.lookup, kName, kHandler, kArgs, kTarget, kEvent]

/-- Master theorem: browser evaluation of the emitted inline handler,
for an embeddable name and handler source, performs exactly one push of
the dispatch entry onto the queue. -/
theorem evalInline_ssrDispatch (name : String) (h : Handler) (args : List Json)
    (hn : nameOKb name = true) (hs : SrcOK h.src) (ctx : EvalCtx) (q : List ReplayEntry) :
    evalInline (ssrDispatch name h args) ctx q =
      some (q ++ [dispatchEntry name h args ctx], [.push (dispatchEntry name h args ctx)]) := by
  rw [evalInline, parseInline_ssrDispatch name h args hn hs]
  dsimp only
  rw [execBlock_tpl]
  rfl

/-! ## The object-heap model for `ssrDefaultProps`

`ssrDefaultProps` builds `Object.assign(Object.create(null),
\x7bstate, actions: Object.create(null), dispatch, render: wire(), _wire: wire\x7d)`.
The model gives objects identity (heap addresses) and prototypes, so
that sharing, null prototypes, and `Object.assign` are observable. -/

/-- Prototype of a model object: `Object.create(null)` gives `nullP`,
an object literal gets the default `Object.prototype` (`objectP`). -/
inductive Proto where
  | nullP
  | objectP

/-- An object on the model heap. -/
structure SrvObj where
  proto : Proto
  fields : List (String × JSVal)

/-- The heap: objects addressed by position. -/
structure SrvHeap where
  objs : List SrvObj

/-- Allocate an object; returns its address and the new heap. -/
def alloc (h : SrvHeap) (o : SrvObj) : Nat × SrvHeap :=
  (h.objs.length, ⟨h.objs ++ [o]⟩)

/-- Read an own field of the object at address `a`. -/
def getOwn (h : SrvHeap) (a : Nat) (k : String) : Option JSVal :=
  (h.objs.get? a).bind (fun o => o.fields.lookup k)

/-- JS property write on a field list: overwrite in place when the key
exists, append otherwise. -/
def setField : List (String × JSVal) → String → JSVal → List (String × JSVal)
  | [], k, v => [(k, v)]
  | (k₀, v₀) :: t, k, v =>
    if k₀ = k then (k₀, v) :: t else (k₀, v₀) :: setField t k v

/-- Write an own field of the object at address `a`. -/
def setOwn (h : SrvHeap) (a : Nat) (k : String) (v : JSVal) : SrvHeap :=
  match h.objs.get? a with
  | none => h
  | some o => ⟨h.objs.set a ⟨o.proto, setField o.fields k v⟩⟩

/-- `Object.assign(target, source)`: copy the source's own fields onto
the target, in order. -/
def objAssign (h : SrvHeap) (t : Nat) : List (String × JSVal) → SrvHeap
  | [] => h
  | (k, v) :: rest => objAssign (setOwn h t k v) t rest

/-- Property read through the prototype chain: own fields first, then —
only for an `objectP` object — the ambient `Object.prototype` fields
`protoFields`; `undefined` otherwise. -/
def getProp (protoFields : List (String × JSVal)) (h : SrvHeap) (a : Nat) (k : String) :
    JSVal :=
  match h.objs.get? a with
  | none => .undefinedV
  | some o =>
    match o.fields.lookup k with
    | some v => v
    | none =>
      match o.proto with
      | .nullP => .undefinedV
      | .objectP => (protoFields.lookup k).getD .undefinedV

/-- The wire capability: its function value and the semantics of
calling it with no arguments.  A call may read the heap and allocate
new objects (returned as `.2`); it cannot mutate existing ones, which
it cannot reach. -/
structure WireFn where
  val : JSVal
  call : SrvHeap → JSVal × List SrvObj

/-- The input record of `ssrDefaultProps`: `\x7b state, dispatch, wire \x7d`. -/
structure SsrIn where
  state : JSVal
  dispatch : JSVal
  wire : WireFn

/-- External calls observable during `ssrDefaultProps`. -/
inductive SrvEv where
  | wireCall

/-- Remaining prop-key constants. -/
def kState : String := "state"

/-- The `actions` key. -/
def kActions : String := "actions"

/-- The `dispatch` key. -/
def kDispatch : String := "dispatch"

/-- The `render` key. -/
def kRender : String := "render"

/-- The `_wire` key. -/
def kWire : String := "_wire"

/-- The `cn` key (the connect capability, injected elsewhere). -/
def kCn : String := "cn"

/-- The embedding of `ssrDefaultProps (\x7b state, dispatch, wire \x7d)`.
JS evaluation order of
`Object.assign(Object.create(null), \x7bstate, actions: Object.create(null),
dispatch, render: wire(), _wire: wire\x7d)`:
first the target `Object.create(null)`, then the literal's property
values left to right (the `actions` allocation, then the single `wire()`
call), then the literal object itself, then the assign copy.  Returns
the target's address, the final heap, and the external-call trace. -/
def ssrDefaultProps (inp : SsrIn) (h : SrvHeap) : Nat × SrvHeap × List SrvEv :=
  let target := (alloc h ⟨.nullP, []⟩).1
  let h₁ := (alloc h ⟨.nullP, []⟩).2
  let actionsA := (alloc h₁ ⟨.nullP, []⟩).1
  let h₂ := (alloc h₁ ⟨.nullP, []⟩).2
  let renderV := (inp.wire.call h₂).1
  let h₃ : SrvHeap := ⟨h₂.objs ++ (inp.wire.call h₂).2⟩
  let litFields := [(kState, inp.state), (kActions, .ref actionsA),
    (kDispatch, inp.dispatch), (kRender, renderV), (kWire, inp.wire.val)]
  let h₄ := (alloc h₃ ⟨.objectP, litFields⟩).2
  let h₅ := objAssign h₄ target litFields
  (target, h₅, [SrvEv.wireCall])

/-- The heap as the `wire()` call sees it: the original objects plus
the two fresh empty null-prototype objects. -/
def midHeap (h : SrvHeap) : SrvHeap :=
  ⟨h.objs ++ [⟨.nullP, []⟩, ⟨.nullP, []⟩]⟩

/-- The five own fields the props record ends up with. -/
def propsFields (inp : SsrIn) (h : SrvHeap) : List (String × JSVal) :=
  [(kState, inp.state), (kActions, .ref (h.objs.length + 1)),
   (kDispatch, inp.dispatch), (kRender, (inp.wire.call (midHeap h)).1),
   (kWire, inp.wire.val)]

theorem get_mid (l₁ : List SrvObj) (o : SrvObj) (l₂ : List SrvObj) :
    (l₁ ++ o :: l₂).get? l₁.length = some o := by
  induction l₁ with
  | nil => rfl
  | cons x t ih => simpa using ih

theorem set_mid (l₁ : List SrvObj) (o o' : SrvObj) (l₂ : List SrvObj) :
    (l₁ ++ o :: l₂).set l₁.length o' = l₁ ++ o' :: l₂ := by
  induction l₁ with
  | nil => rfl
  | cons x t ih => simp [ih]

/-- Master computation: the result of `ssrDefaultProps`.  The props
object sits at the next free address with a null prototype and exactly
the five fields; the `actions` object follows it, empty with a null
prototype; the wire call's allocations and the discarded literal come
after; all pre-existing objects are untouched. -/
theorem ssrDefaultProps_spec (inp : SsrIn) (h : SrvHeap) :
    ssrDefaultProps inp h =
      (h.objs.length,
       ⟨h.objs ++ SrvObj.mk .nullP (propsFields inp h) :: SrvObj.mk .nullP [] ::
          ((inp.wire.call (midHeap h)).2 ++ [⟨.objectP, propsFields inp h⟩])⟩,
       [SrvEv.wireCall]) := by
  have hks : ¬(kState = kActions) ∧ ¬(kState = kDispatch) ∧ ¬(kState = kRender) ∧
      ¬(kState = kWire) ∧ ¬(kActions = kDispatch) ∧ ¬(kActions = kRender) ∧
      ¬(kActions = kWire) ∧ ¬(kDispatch = kRender) ∧ ¬(kDispatch = kWire) ∧
      ¬(kRender = kWire) := by
    refine ⟨?_, ?_, ?_, ?_, ?_, ?_, ?_, ?_, ?_, ?_⟩ <;> decide
  obtain ⟨k₁, k₂, k₃, k₄, k₅, k₆, k₇, k₈, k₉, k₁₀⟩ := hks
  simp only [ssrDefaultProps, alloc, midHeap, propsFields, List.append_assoc,
    List.cons_append, List.nil_append]
  simp only [objAssign, setOwn, setField, get_mid, set_mid, k₁, k₂, k₃, k₄, k₅, k₆, k₇,
    k₈, k₉, k₁₀, if_false, ite_false, if_true, ite_true, eq_self_iff_true]
  simp [List.append_assoc]

theorem get_mid2 (l₁ : List SrvObj) (o o' : SrvObj) (l₂ : List SrvObj) :
    (l₁ ++ o :: o' :: l₂).get? (l₁.length + 1) = some o' := by
  induction l₁ with
  | nil => rfl
  | cons x t ih => simpa using ih

/-! ## Concrete inputs used by witnesses and counterexamples -/

/-- A well-formed handler source. -/
def wSrcA : String := "function (e, a) \x7b a(); \x7d"

/-- A handler whose behavior replays the queue unchanged. -/
def hA : Handler := ⟨wSrcA, fun _ _ q => q⟩

/-- A handler with the same source text as `hA` but different behavior. -/
def hB : Handler := ⟨wSrcA, fun _ _ _ => []⟩

/-- A well-formed action name. -/
def wNameA : String := "fetchPosts"

/-- Another well-formed action name. -/
def wNameB : String := "route"

/-- A sample argument list. -/
def wArgsA : List Json := [Json.num 1, Json.num 2]

/-- Another sample argument list. -/
def wArgsB : List Json := [Json.str ("a b"), Json.obj [("k", Json.null)]]

/-- A name containing a single quote: `a'b`. -/
def c1Name : String := "a\x27b"

/-- A name that closes the quote and concatenates: `x\x27 + \x27y`. -/
def c4Name : String := "x\x27 + \x27y"

/-- The first literal piece the `c4Name` injection declares. -/
def cX : String := "x"

/-- The second literal piece the `c4Name` injection declares. -/
def cY : String := "y"

/-- The name value the `c4Name` injection actually pushes. -/
def c4Joined : String := "xy"

/-- A name that closes the quote and truncates the queue:
`x\x27; window.dispatcher.toReplay.length = 0; const z = \x27`. -/
def c6Name : String := "x\x27; window.dispatcher.toReplay.length = 0; const z = \x27"

/-- The identifier of the filler declaration the `c6Name` injection
emits to absorb the template's closing quote. -/
def cZname : String := "z"

/-- The empty string, declared by the filler. -/
def cEmpty : String := ""

/-- A third well-formed action name. -/
def wNameC : String := "toggle"

/-- A third sample argument list. -/
def wArgsC : List Json := [Json.bool true]

/-- A browser context: a DOM node and a DOM event. -/
def ctx0 : EvalCtx := ⟨.domNode 3, .domEvent 4⟩

/-- An entry sitting in the replay queue before a handler fires. -/
def seedEntry : ReplayEntry :=
  ⟨.strv ("seed"), .undefinedV, .undefinedV, .domNode 7, .domEvent 8⟩

/-- The entry the `c4Name` injection pushes: its name is the
concatenation `xy`, not the passed name. -/
def c4Entry : ReplayEntry :=
  ⟨.strv c4Joined, .closure wSrcA, jsonToVal (Json.arr []), ctx0.target, ctx0.event⟩

/-- The entry the `c6Name` injection pushes after clearing the queue. -/
def c6Entry : ReplayEntry :=
  ⟨.strv cX, .closure wSrcA, jsonToVal (Json.arr [Json.num 1]), ctx0.target, ctx0.event⟩

/-- A wire capability returning a fresh result. -/
def w0 : WireFn := ⟨.closure ("wire"), fun _ => (.numv 9, [⟨.objectP, []⟩])⟩

/-- A concrete `ssrDefaultProps` input. -/
def inp0 : SsrIn := ⟨.numv 7, .numv 8, w0⟩

/-- A wire capability whose call returns the wire function itself. -/
def wSelf : WireFn := ⟨.closure ("wire"), fun _ => (.closure ("wire"), [])⟩

/-- An `ssrDefaultProps` input whose wire returns itself. -/
def inpSelf : SsrIn := ⟨.numv 1, .numv 2, wSelf⟩

set_option maxRecDepth 8192 in
/-- The body of the emission for the concatenating name `c4Name`
parses as four statements: the name declaration carries the
concatenation, not a single literal. -/
theorem parseStmts_c4 (f : Nat) (hf : 5 ≤ f) :
    parseStmts f
      ('\n' :: ' ' :: ' ' :: ' ' :: ' ' ::
        'c' :: 'o' :: 'n' :: 's' :: 't' :: ' ' ::
        'n' :: 'a' :: 'm' :: 'e' :: ' ' :: '=' :: ' ' :: sqC ::
        (c4Name.data ++ sqC :: ';' :: '\n' :: ' ' :: ' ' :: ' ' :: ' ' ::
          'c' :: 'o' :: 'n' :: 's' :: 't' :: ' ' ::
          'h' :: 'a' :: 'n' :: 'd' :: 'l' :: 'e' :: 'r' :: ' ' :: '=' :: ' ' :: '(' ::
          (hA.src.data ++ ')' :: ';' :: '\n' :: ' ' :: ' ' :: ' ' :: ' ' ::
            'c' :: 'o' :: 'n' :: 's' :: 't' :: ' ' ::
            'a' :: 'r' :: 'g' :: 's' :: ' ' :: '=' :: ' ' ::
            (serJ (.arr []) ++ ';' :: '\n' :: ' ' :: ' ' :: ' ' :: ' ' :: wTail)))) =
      some ([JStmt.constDecl kName (.strCat [cX, cY]),
             JStmt.constDecl kHandler (.funParen wSrcA),
             JStmt.constDecl kArgs (.jsonLit (.arr [])),
             JStmt.pushReplay pushFields], []) := by
  obtain ⟨m, rfl⟩ : ∃ m, f = m + 5 := ⟨f - 5, by omega⟩
  refine parseStmts_spec _ _ _ _ _ _ _ _ rfl (by decide) rfl ?_
  refine parseStmts_spec _ _ _ _ _ _ _ _ rfl (by decide) rfl ?_
  refine parseStmts_spec _ _ _ _ _ _ _ _ rfl (by decide) (stmtArgs_spec [] _) ?_
  refine parseStmts_spec _ _ _ _ _ _ _ _ rfl (by decide) (stmtPush_spec _) ?_
  exact parseStmts_close m _ [] rfl

set_option maxRecDepth 8192 in
/-- The body of the emission for the truncating name `c6Name` parses
as six statements, among them the assignment clearing the queue. -/
theorem parseStmts_c6 (f : Nat) (hf : 7 ≤ f) :
    parseStmts f
      ('\n' :: ' ' :: ' ' :: ' ' :: ' ' ::
        'c' :: 'o' :: 'n' :: 's' :: 't' :: ' ' ::
        'n' :: 'a' :: 'm' :: 'e' :: ' ' :: '=' :: ' ' :: sqC ::
        (c6Name.data ++ sqC :: ';' :: '\n' :: ' ' :: ' ' :: ' ' :: ' ' ::
          'c' :: 'o' :: 'n' :: 's' :: 't' :: ' ' ::
          'h' :: 'a' :: 'n' :: 'd' :: 'l' :: 'e' :: 'r' :: ' ' :: '=' :: ' ' :: '(' ::
          (hA.src.data ++ ')' :: ';' :: '\n' :: ' ' :: ' ' :: ' ' :: ' ' ::
            'c' :: 'o' :: 'n' :: 's' :: 't' :: ' ' ::
            'a' :: 'r' :: 'g' :: 's' :: ' ' :: '=' :: ' ' ::
            (serJ (.arr [Json.num 1]) ++ ';' :: '\n' :: ' ' :: ' ' :: ' ' :: ' ' ::
              wTail)))) =
      some ([JStmt.constDecl kName (.strLit cX),
             JStmt.lenAssign 0,
             JStmt.constDecl cZname (.strLit cEmpty),
             JStmt.constDecl kHandler (.funParen wSrcA),
             JStmt.constDecl kArgs (.jsonLit (.arr [Json.num 1])),
             JStmt.pushReplay pushFields], []) := by
  obtain ⟨m, rfl⟩ : ∃ m, f = m + 7 := ⟨f - 7, by omega⟩
  refine parseStmts_spec _ _ _ _ _ _ _ _ rfl (by decide) rfl ?_
  refine parseStmts_spec _ _ _ _ _ _ _ _ rfl (by decide) rfl ?_
  refine parseStmts_spec _ _ _ _ _ _ _ _ rfl (by decide) rfl ?_
  refine parseStmts_spec _ _ _ _ _ _ _ _ rfl (by decide) rfl ?_
  refine parseStmts_spec _ _ _ _ _ _ _ _ rfl (by decide) (stmtArgs_spec [Json.num 1] _) ?_
  refine parseStmts_spec _ _ _ _ _ _ _ _ rfl (by decide) (stmtPush_spec _) ?_
  exact parseStmts_close m _ [] rfl

/-! ## The claims -/

/-- C1 (counterexample): for the action name `a'b` — the claim puts no
restriction on the name — the emitted inline handler is a JS syntax
error (the quote ends the string literal early), so evaluating it in
the browser performs no push at all, not exactly one. -/
theorem ssrDispatch_quote_name_no_push :
    evalInline (ssrDispatch c1Name hA [Json.num 1]) ctx0 [] = none := by
  rfl

/-- C1 (amended): for every action name free of single quotes,
backslashes and line terminators, and every handler whose source has
balanced parens and no quote, backtick or backslash characters, the
string `ssrDispatch` returns, evaluated in the browser as an inline
handler, performs exactly one push onto `window.dispatcher.toReplay` —
of the entry carrying the name, the handler closure, the arguments, the
DOM node (`this`) and the DOM event — and performs nothing else; in
particular the handler itself is not invoked. -/
theorem ssrDispatch_eval_single_push (name : String) (h : Handler) (args : List Json)
    (ctx : EvalCtx) (q : List ReplayEntry)
    (hn : nameOKb name = true) (hs : SrcOK h.src) :
    evalInline (ssrDispatch name h args) ctx q =
      some (q ++ [dispatchEntry name h args ctx],
        [Eff.push (dispatchEntry name h args ctx)]) :=
  evalInline_ssrDispatch name h args hn hs ctx q

/-- C1 (witness): the amended claim at a concrete input. -/
theorem ssrDispatch_eval_single_push_witness :
    evalInline (ssrDispatch wNameB hA wArgsB) ctx0 [] =
      some ([dispatchEntry wNameB hA wArgsB ctx0],
        [Eff.push (dispatchEntry wNameB hA wArgsB ctx0)]) :=
  ssrDispatch_eval_single_push wNameB hA wArgsB ctx0 []
    (by decide) (by unfold SrcOK; decide)

/-- C2: `ssrDefaultProps` returns a props record whose `state` field is
the given state, whose `actions` field is a fresh empty mapping, whose
`dispatch` field is the given dispatch, and whose `render` field is the
result of invoking the wire capability with no arguments. -/
theorem ssrDefaultProps_injects_defaults (inp : SsrIn) (h : SrvHeap) :
    getOwn (ssrDefaultProps inp h).2.1 (ssrDefaultProps inp h).1 kState = some inp.state ∧
    getOwn (ssrDefaultProps inp h).2.1 (ssrDefaultProps inp h).1 kActions =
      some (.ref (h.objs.length + 1)) ∧
    (ssrDefaultProps inp h).2.1.objs.get? (h.objs.length + 1) = some ⟨.nullP, []⟩ ∧
    getOwn (ssrDefaultProps inp h).2.1 (ssrDefaultProps inp h).1 kDispatch =
      some inp.dispatch ∧
    getOwn (ssrDefaultProps inp h).2.1 (ssrDefaultProps inp h).1 kRender =
      some ((inp.wire.call (midHeap h)).1) := by
  rw [ssrDefaultProps_spec]
  refine ⟨?_, ?_, ?_, ?_, ?_⟩ <;>
    simp only [getOwn, get_mid, get_mid2, Option.some_bind] <;>
    simp [propsFields, List.lookup, kState, kActions, kDispatch, kRender, kWire]

/-- C3: the `args` value carried by the pushed Replay Entry is the
JS value of the original argument list: serialization into markup text
through `JSON.stringify` and browser evaluation round-trip the
arguments. -/
theorem ssrDispatch_args_roundtrip (name : String) (h : Handler) (args : List Json)
    (ctx : EvalCtx) (q : List ReplayEntry)
    (hn : nameOKb name = true) (hs : SrcOK h.src) :
    (dispatchEntry name h args ctx).args = .arrv (jsonToValL args) ∧
    evalInline (ssrDispatch name h args) ctx q =
      some (q ++ [dispatchEntry name h args ctx],
        [Eff.push (dispatchEntry name h args ctx)]) :=
  ⟨rfl, evalInline_ssrDispatch name h args hn hs ctx q⟩

/-- C3 (witness): the round-trip at a concrete argument list. -/
theorem ssrDispatch_args_roundtrip_witness :
    (dispatchEntry wNameA hA wArgsA ctx0).args = .arrv (jsonToValL wArgsA) ∧
    evalInline (ssrDispatch wNameA hA wArgsA) ctx0 [] =
      some ([dispatchEntry wNameA hA wArgsA ctx0],
        [Eff.push (dispatchEntry wNameA hA wArgsA ctx0)]) :=
  ssrDispatch_args_roundtrip wNameA hA wArgsA ctx0 []
    (by decide) (by unfold SrcOK; decide)

/-- C4 (counterexample): for the name `x' + 'y` — the claim allows any
characters — the emitted handler is valid JS in which the quote closes
the literal and a string concatenation follows; it pushes exactly one
Replay Entry whose `name` field is `xy`, not the name passed to
`ssrDispatch`. -/
theorem ssrDispatch_concat_name_changed :
    evalInline (ssrDispatch c4Name hA []) ctx0 [] =
      some ([c4Entry], [Eff.push c4Entry]) ∧
    ¬(c4Joined = c4Name) := by
  have hp : parseInline (ssrDispatch c4Name hA []).data =
      some [JStmt.constDecl kName (.strCat [cX, cY]),
            JStmt.constDecl kHandler (.funParen wSrcA),
            JStmt.constDecl kArgs (.jsonLit (.arr [])),
            JStmt.pushReplay pushFields] := by
    rw [ssrDispatch_data, parseInline]
    rw [if_pos rfl]
    rw [parseStmts_c4 _ (by simp only [List.length_cons, List.length_append]; omega)]
    rfl
  refine ⟨?_, by decide⟩
  rw [evalInline, hp]
  dsimp only
  rfl

/-- C4 (amended): for every action name free of single quotes,
backslashes and line terminators, and every handler whose source has
balanced parens and no quote, backtick or backslash characters, the
`name` field of the pushed Replay Entry is exactly the name passed to
`ssrDispatch`. -/
theorem ssrDispatch_name_preserved (name : String) (h : Handler) (args : List Json)
    (ctx : EvalCtx) (q : List ReplayEntry)
    (hn : nameOKb name = true) (hs : SrcOK h.src) :
    evalInline (ssrDispatch name h args) ctx q =
      some (q ++ [⟨.strv name, .closure h.src, .arrv (jsonToValL args),
        ctx.target, ctx.event⟩],
        [Eff.push ⟨.strv name, .closure h.src, .arrv (jsonToValL args),
          ctx.target, ctx.event⟩]) :=
  evalInline_ssrDispatch name h args hn hs ctx q

/-- C4 (witness): the amended claim at a concrete name. -/
theorem ssrDispatch_name_preserved_witness :
    evalInline (ssrDispatch wNameA hA wArgsB) ctx0 [] =
      some ([⟨.strv wNameA, .closure hA.src, .arrv (jsonToValL wArgsB),
        ctx0.target, ctx0.event⟩],
        [Eff.push ⟨.strv wNameA, .closure hA.src, .arrv (jsonToValL wArgsB),
          ctx0.target, ctx0.event⟩]) :=
  ssrDispatch_name_preserved wNameA hA wArgsB ctx0 []
    (by decide) (by unfold SrcOK; decide)

/-- C5: `ssrDefaultProps` does not copy the state: the `state` field of
the returned props is the very value passed in (the same reference when
it is an object), and every pre-existing heap object — in particular
the state object — is left untouched, so all consumers share the one
instance. -/
theorem ssrDefaultProps_shares_state (inp : SsrIn) (h : SrvHeap) :
    getOwn (ssrDefaultProps inp h).2.1 (ssrDefaultProps inp h).1 kState = some inp.state ∧
    (ssrDefaultProps inp h).2.1.objs.take h.objs.length = h.objs := by
  rw [ssrDefaultProps_spec]
  constructor
  · simp only [getOwn, get_mid, Option.some_bind]
    simp [propsFields, List.lookup, kState]
  · exact List.take_left h.objs _

/-- C6 (counterexample): for the name
`x'; window.dispatcher.toReplay.length = 0; const z = '` — nothing
restricts the name — the emitted handler is valid JS that first clears
`window.dispatcher.toReplay`, discarding the entry already queued, and
only then pushes its own entry: the queue is not append-only and
existing entries are not preserved. -/
theorem ssrDispatch_injection_clears_queue :
    evalInline (ssrDispatch c6Name hA [Json.num 1]) ctx0 [seedEntry] =
      some ([c6Entry], [Eff.setLen 0, Eff.push c6Entry]) ∧
    ¬(seedEntry = c6Entry) := by
  have hp : parseInline (ssrDispatch c6Name hA [Json.num 1]).data =
      some [JStmt.constDecl kName (.strLit cX),
            JStmt.lenAssign 0,
            JStmt.constDecl cZname (.strLit cEmpty),
            JStmt.constDecl kHandler (.funParen wSrcA),
            JStmt.constDecl kArgs (.jsonLit (.arr [Json.num 1])),
            JStmt.pushReplay pushFields] := by
    rw [ssrDispatch_data, parseInline]
    rw [if_pos rfl]
    rw [parseStmts_c6 _ (by simp only [List.length_cons, List.length_append]; omega)]
    rfl
  constructor
  · rw [evalInline, hp]
    dsimp only
    rfl
  · simp [seedEntry, c6Entry, cX]

/-- C6 (amended): for every name free of single quotes, backslashes and
line terminators, and every handler whose source has balanced parens
and no quote, backtick or backslash characters, the handler emitted by
`ssrDispatch` appends exactly one entry at the tail of
`window.dispatcher.toReplay`, preserving all existing entries and their
order; under that restriction queue entries accumulate in the order
handlers fire. -/
theorem ssrDispatch_append_only_safe (name : String) (h : Handler) (args : List Json)
    (ctx : EvalCtx) (q : List ReplayEntry)
    (hn : nameOKb name = true) (hs : SrcOK h.src) :
    ∃ tr, evalInline (ssrDispatch name h args) ctx q =
      some (q ++ [dispatchEntry name h args ctx], tr) :=
  ⟨[Eff.push (dispatchEntry name h args ctx)],
    evalInline_ssrDispatch name h args hn hs ctx q⟩

/-- C6 (witness): the amended claim at a concrete input with a
non-empty starting queue. -/
theorem ssrDispatch_append_only_safe_witness :
    ∃ tr, evalInline (ssrDispatch wNameC hA wArgsC) ctx0 [seedEntry] =
      some ([seedEntry] ++ [dispatchEntry wNameC hA wArgsC ctx0], tr) :=
  ssrDispatch_append_only_safe wNameC hA wArgsC ctx0 [seedEntry]
    (by decide) (by unfold SrcOK; decide)

/-- C7 (counterexample): at a concrete input the props record returned
by `ssrDefaultProps` has no `cn` field. -/
theorem ssrDefaultProps_no_cn_at_input :
    getOwn (ssrDefaultProps inp0 ⟨[]⟩).2.1 (ssrDefaultProps inp0 ⟨[]⟩).1 kCn = none := by
  rfl

/-- C7 (amended): the props record produced by `ssrDefaultProps` has
exactly the fields `state`, `actions`, `dispatch`, `render`, `_wire` —
the connect capability `cn` is not among them; `cn` is injected by the
client-side connect function, not by the server's default props. -/
theorem ssrDefaultProps_fields_exactly (inp : SsrIn) (h : SrvHeap) :
    ((ssrDefaultProps inp h).2.1.objs.get? (ssrDefaultProps inp h).1).map
      (fun o => o.fields.map Prod.fst) =
      some [kState, kActions, kDispatch, kRender, kWire] := by
  rw [ssrDefaultProps_spec]
  simp only [get_mid, Option.map_some']
  simp [propsFields]

/-- C8: `ssrDispatch` itself is pure and deterministic: its result is a
function of the name, the handler's source text, and the arguments
alone.  Two handlers with equal source but arbitrarily different
behavior yield character-identical strings — so the handler is not
invoked, and no state influences the output. -/
theorem ssrDispatch_pure_deterministic (name : String) (args : List Json)
    (h₁ h₂ : Handler) (hsrc : h₁.src = h₂.src) :
    ssrDispatch name h₁ args = ssrDispatch name h₂ args := by
  rw [ssrDispatch, ssrDispatch, hsrc]

/-- C8 (witness): two handlers with identical source and different
behavior produce the identical string. -/
theorem ssrDispatch_pure_deterministic_witness :
    ssrDispatch wNameA hA wArgsA = ssrDispatch wNameA hB wArgsA :=
  ssrDispatch_pure_deterministic wNameA wArgsA hA hB rfl

/-- C9: the props record and its empty `actions` mapping are created
with a null prototype: whatever the ambient `Object.prototype` carries,
a property read on the props record sees exactly its five own fields
and a read on the actions mapping sees nothing at all. -/
theorem ssrDefaultProps_null_proto (inp : SsrIn) (h : SrvHeap)
    (protoFields : List (String × JSVal)) (k : String) :
    getProp protoFields (ssrDefaultProps inp h).2.1 (ssrDefaultProps inp h).1 k =
      ((propsFields inp h).lookup k).getD .undefinedV ∧
    getProp protoFields (ssrDefaultProps inp h).2.1 (h.objs.length + 1) k = .undefinedV ∧
    ((ssrDefaultProps inp h).2.1.objs.get? (ssrDefaultProps inp h).1).map SrvObj.proto =
      some .nullP := by
  rw [ssrDefaultProps_spec]
  refine ⟨?_, ?_, ?_⟩
  · simp only [getProp, get_mid]
    cases hk : (propsFields inp h).lookup k with
    | none => rfl
    | some v => rfl
  · simp only [getProp, get_mid2]
    rfl
  · simp only [get_mid, Option.map_some']

/-- C10 (counterexample): when the wire capability's call returns the
wire function itself, the `render` and `_wire` fields of the props are
the same value, so they are not distinct for every input. -/
theorem ssrDefaultProps_render_wire_coincide :
    getOwn (ssrDefaultProps inpSelf ⟨[]⟩).2.1 (ssrDefaultProps inpSelf ⟨[]⟩).1 kRender =
      getOwn (ssrDefaultProps inpSelf ⟨[]⟩).2.1 (ssrDefaultProps inpSelf ⟨[]⟩).1 kWire := by
  rfl

/-- C10 (amended): the props record carries a `_wire` field that is the
wire capability itself (not an invocation), while `render` holds the
result of the single `wire()` call the construction performs; the two
need not be distinct — they coincide exactly when `wire()` returns the
wire function itself. -/
theorem ssrDefaultProps_wire_fields (inp : SsrIn) (h : SrvHeap) :
    getOwn (ssrDefaultProps inp h).2.1 (ssrDefaultProps inp h).1 kWire =
      some inp.wire.val ∧
    getOwn (ssrDefaultProps inp h).2.1 (ssrDefaultProps inp h).1 kRender =
      some ((inp.wire.call (midHeap h)).1) ∧
    (ssrDefaultProps inp h).2.2 = [SrvEv.wireCall] := by
  rw [ssrDefaultProps_spec]
  refine ⟨?_, ?_, rfl⟩ <;>
    simp only [getOwn, get_mid, Option.some_bind] <;>
    simp [propsFields, List.lookup, kState, kActions, kDispatch, kRender, kWire]

end HyperSam
